import Mathlib

/-!
# Verification development for the AI auto-dev platform core (`ultimate_platform.py`)

A shallow embedding of the generation-pipeline core: the fingerprint cache
(`get_cache`/`set_cache`), the project state store (`ProjectState.save` /
`ProjectState.load`), the regex-based identifier extractor
(`ProjectState.extract`), the simulation fallbacks (`APIClient._sim_analyze` /
`APIClient._sim_code`), and the seven-stage orchestrator (`ProjectGen.run`,
`bg_gen`).

Conventions used throughout:
* Python wall-clock times (`time.time()`, `datetime.now()`) are modelled as an
  integer clock carried in the world state; `time.sleep` advances it.
* Python dicts keyed by strings are modelled as association lists with
  first-occurrence update (`aset`) and lookup (`aget`).
* Python exceptions are modelled by `Except Exc`; the orchestrator's top-level
  `try/except` is the outermost `match` in `ProjectGen_run`.
* `hashlib.sha256`/`hashlib.md5` and the Anthropic client are external library
  collaborators; they enter the model as parameters (`Ext`, `ApiO`, `DeployO`),
  with the in-repo simulation fallbacks embedded concretely.
-/

set_option maxRecDepth 4000

/-! ## Identifier extractor (`ProjectState.extract`)

The source scans generated code with six `re.findall` patterns:
functions: `function\s+(\w+)\s*\(`, `def\s+(\w+)\s*\(`, `const\s+(\w+)\s*=\s*\(`;
variables: `var\s+(\w+)`, `let\s+(\w+)`, `const\s+(\w+)`.
We embed `re.findall` for exactly these pattern shapes: a literal keyword,
one-or-more whitespace, a captured maximal word-character run, then (for the
function patterns) optional whitespace and the literal tail.  The capture is
always the *maximal* `\w+` run: a shorter backtracked capture would leave a word
character right after it, which neither `\s*` nor the literal tail can match.
`re.findall` semantics: scan positions left to right, emit the capture of each
leftmost non-overlapping match, resume after the whole match.
Word/space characters are modelled over the ASCII range (the source relies on
Python's Unicode classes only incidentally, in Korean comments). -/

/-- ASCII fragment of Python's regex class `\w`. -/
def isWordChar (c : Char) : Bool := c.isAlphanum || c = '_'

/-- ASCII fragment of Python's regex class `\s`. -/
def isSpc (c : Char) : Bool :=
  c = ' ' || c = '\t' || c = '\n' || c = '\r' || c = '\x0b' || c = '\x0c'

/-- Split off the maximal prefix of word characters (a greedy `\w*`). -/
def takeWord : List Char → List Char × List Char
  | [] => ([], [])
  | c :: cs =>
    if isWordChar c then
      let p := takeWord cs
      (c :: p.1, p.2)
    else ([], c :: cs)

/-- Split off the maximal prefix of whitespace characters (a greedy `\s*`). -/
def takeSpc : List Char → List Char × List Char
  | [] => ([], [])
  | c :: cs =>
    if isSpc c then
      let p := takeSpc cs
      (c :: p.1, p.2)
    else ([], c :: cs)

/-- Strip an exact literal prefix, returning the remainder on success. -/
def stripPfx : List Char → List Char → Option (List Char)
  | [], s => some s
  | _ :: _, [] => none
  | k :: ks, c :: cs => if c = k then stripPfx ks cs else none

/-- Match `kw\s+(\w+)` at the head of `s`: the keyword literal, at least one
whitespace character, then a nonempty maximal word run (the capture).
Returns the capture and the remainder after the match.  This is the whole of
the variable patterns `var\s+(\w+)`, `let\s+(\w+)`, `const\s+(\w+)`. -/
def tryDecl (kw : List Char) (s : List Char) : Option (List Char × List Char) :=
  match stripPfx kw s with
  | none => none
  | some r0 =>
    match takeSpc r0 with
    | ([], _) => none
    | (_ :: _, r1) =>
      match takeWord r1 with
      | ([], _) => none
      | (w, r2) => some (w, r2)

/-- Match `kw\s+(\w+)\s*\(` at the head of `s` (patterns
`function\s+(\w+)\s*\(` and `def\s+(\w+)\s*\(`). -/
def tryFunc (kw : List Char) (s : List Char) : Option (List Char × List Char) :=
  match tryDecl kw s with
  | none => none
  | some (w, r2) =>
    match (takeSpc r2).2 with
    | '(' :: r3 => some (w, r3)
    | _ => none

/-- Match `const\s+(\w+)\s*=\s*\(` at the head of `s`. -/
def tryConstArrow (s : List Char) : Option (List Char × List Char) :=
  match tryDecl ['c', 'o', 'n', 's', 't'] s with
  | none => none
  | some (w, r2) =>
    match (takeSpc r2).2 with
    | '=' :: r3 =>
      match (takeSpc r3).2 with
      | '(' :: r4 => some (w, r4)
      | _ => none
    | _ => none

/-- The `re.findall` scan loop, fuelled for structural termination; each step
either emits the leftmost match at the current position and resumes after it,
or advances one character.  `scanA pat s.length s` is exact because every step
consumes at least one character. -/
def scanA (pat : List Char → Option (List Char × List Char)) :
    Nat → List Char → List (List Char)
  | 0, _ => []
  | _ + 1, [] => []
  | n + 1, c :: cs =>
    match pat (c :: cs) with
    | some (w, rest) => w :: scanA pat n rest
    | none => scanA pat n cs

/-- `re.findall(pattern, s)`: all captures of leftmost non-overlapping
matches, left to right. -/
def findall (pat : List Char → Option (List Char × List Char))
    (s : List Char) : List (List Char) :=
  scanA pat s.length s

/-- `ProjectState.extract(code)`: union the captures of the three function
patterns and the three variable patterns, then de-duplicate each category
(`list(set(...))` in the source; the set's iteration order is unspecified
there, so claims about `extract` must not depend on the order, only on
membership — we fix last-occurrence order via `List.dedup`). -/
def ProjectState.extract (code : String) : List String × List String :=
  let cs := code.data
  let funcs := findall (tryFunc "function".data) cs ++
    findall (tryFunc "def".data) cs ++ findall tryConstArrow cs
  let vars := findall (tryDecl "var".data) cs ++
    findall (tryDecl "let".data) cs ++ findall (tryDecl "const".data) cs
  ((vars.map List.asString).dedup, (funcs.map List.asString).dedup)

/-- The captures reported by the const-arrow-function pattern alone. -/
def constArrowNames (code : String) : List String :=
  (findall tryConstArrow code.data).map List.asString

/-! ## Association-list model of string-keyed tables and dicts

`projects.db` rows keyed by `id`, the in-memory `cache_store`, the
`progress_store`, generated-file dicts, and `codes` dicts all are string-keyed
maps; we model them as association lists with first-match lookup and
update-in-place-or-append insertion (Python dict / SQLite upsert order). -/

/-- Dict/table lookup, first match wins. -/
def aget {β : Type} : List (String × β) → String → Option β
  | [], _ => none
  | (k', v) :: t, k => if k' = k then some v else aget t k

/-- Dict/table insert-or-replace, preserving the position of an existing key
and appending a new key at the end (Python dict insertion order,
SQLite `INSERT OR REPLACE` keyed by primary key). -/
def aset {β : Type} : List (String × β) → String → β → List (String × β)
  | [], k, v => [(k, v)]
  | (k', v') :: t, k, v =>
    if k' = k then (k, v) :: t else (k', v') :: aset t k v

/-- Dict entry deletion (`del d[k]`), removing the first match. -/
def aerase {β : Type} : List (String × β) → String → List (String × β)
  | [], _ => []
  | (k', v') :: t, k => if k' = k then t else (k', v') :: aerase t k

/-! ## Project State Store (`ProjectState.save` / `ProjectState.load`)

The SQLite table `projects(id, name, code, variables, functions, history,
created_at, updated_at)`; `variables`, `functions`, `history` are JSON-encoded
and decoded on load, so we model them structurally. -/

/-- One history entry appended by `save`:
`{'timestamp': now, 'code': code, 'variables': vars, 'functions': funcs}`
(the `variables`/`functions` columns are spelled `vars`/`funcs` here because
`variables` is a reserved legacy token in Lean). -/
structure Rev where
  timestamp : Int
  code : String
  vars : List String
  funcs : List String
  deriving DecidableEq, Repr

/-- One stored row of the `projects` table (without its primary key);
`vars`/`funcs` stand for the `variables`/`functions` columns. -/
structure Row where
  name : String
  code : String
  vars : List String
  funcs : List String
  history : List Rev
  created_at : Int
  updated_at : Int
  deriving DecidableEq, Repr

/-- The `projects` table, keyed by `id`. -/
abbrev Db := List (String × Row)

/-- `ProjectState.save(pid, name, code, vars, funcs)` at clock `now`
(`datetime.now().isoformat()` in the source): load the existing row's history
(`[]` if the row is absent), append the new revision, keep the last ten
(`history = history[-10:]`), and `INSERT OR REPLACE` the whole row.  Note the
replaced row's `created_at` and `updated_at` are *both* bound to `now`. -/
def ProjectState.save (db : Db) (now : Int) (pid name code : String)
    (vars funcs : List String) : Db :=
  let history := match aget db pid with
    | some row => row.history
    | none => []
  let history := history ++ [⟨now, code, vars, funcs⟩]
  let history := history.drop (history.length - 10)
  aset db pid ⟨name, code, vars, funcs, history, now, now⟩

/-- `ProjectState.load(pid)`: the stored row (with its id) or `None`. -/
def ProjectState.load (db : Db) (pid : String) : Option (String × Row) :=
  (aget db pid).map (fun r => (pid, r))

/-! ## Fingerprint cache (`get_cache` / `set_cache`)

`cache_store` maps a fingerprint to `(result, insertion_time)` — except that
`set_cache` with caching disabled stores the Python value `None` instead of a
pair (the conditional expression in
`cache_store[k] = (d, time.time()) if Config.CACHE_ENABLED else None`
selects the *value*, not the assignment).  An entry is therefore
`Option (ρ × Int)`: `some (d, t)` for a pair, `none` for that `None` marker.
Unpacking the marker (`d, t = cache_store[k]`) raises `TypeError`. -/

/-- Python exceptions reaching the orchestrator. -/
inductive Exc where
  | keyError (k : String)
  | typeError (m : String)
  | err (m : String)
  deriving DecidableEq, Repr

/-- `str(e)` of a caught exception, used in the structured failure result. -/
def Exc.msg : Exc → String
  | .keyError k => "\x27" ++ k ++ "\x27"
  | .typeError m => m
  | .err m => m

/-- A cache entry: a `(value, insertion_time)` pair, or the `None` marker. -/
abbrev CEntry (ρ : Type) := Option (ρ × Int)

/-- The global `cache_store`. -/
abbrev CStore (ρ : Type) := List (String × CEntry ρ)

/-- `get_cache(k)` at clock `now`: absent when disabled or the key is missing;
for a pair entry, return the value while `now - t < ttl` and otherwise delete
the stale entry and return absent; unpacking a `None` marker raises. -/
def get_cache {ρ : Type} (enabled : Bool) (ttl : Int) (now : Int)
    (store : CStore ρ) (k : String) : Except Exc (Option ρ × CStore ρ) :=
  if !enabled then .ok (none, store)
  else
    match aget store k with
    | none => .ok (none, store)
    | some none => .error (.typeError "cannot unpack non-iterable NoneType object")
    | some (some (d, t)) =>
      if now - t < ttl then .ok (some d, store)
      else .ok (none, aerase store k)

/-- `set_cache(k, d)` at clock `now`:
`cache_store[k] = (d, time.time()) if Config.CACHE_ENABLED else None`. -/
def set_cache {ρ : Type} (enabled : Bool) (now : Int) (store : CStore ρ)
    (k : String) (d : ρ) : CStore ρ :=
  aset store k (if enabled then some (d, now) else none)

/-! ## Result payloads and progress records -/

/-- The `summary` sub-dict of a success result:
`{'total_files', 'total_lines', 'elapsed'}`. -/
structure Summary where
  total_files : Nat
  total_lines : Nat
  elapsed : Int
  deriving DecidableEq, Repr

/-- The value returned by `ProjectGen.run`: either the success dict assembled
in stage 7, or the structured failure dict `{'success': False, 'error': msg}`
produced by the top-level exception handler.  Either dict is non-empty, hence
truthy, which is what `if cached:` tests on a cache hit. -/
inductive PyResult where
  | success (project_id project_name description : String)
      (features : List String) (files : List String)
      (code : List (String × String)) (vars funcs : List String)
      (elapsed_time : Int) (deployment_url : Option String)
      (summary : Summary) (cached : Bool)
  | failure (error : String)
  deriving DecidableEq, Repr

/-- The `success` flag of a result dict. -/
def PyResult.isOk : PyResult → Bool
  | .success .. => true
  | .failure _ => false

/-- The `project_name` field of a success result. -/
def PyResult.nameOf : PyResult → Option String
  | .success _ n _ _ _ _ _ _ _ _ _ _ => some n
  | .failure _ => none

/-- The `files` (file-name list) field of a success result. -/
def PyResult.filesOf : PyResult → List String
  | .success _ _ _ _ fs _ _ _ _ _ _ _ => fs
  | .failure _ => []

/-- The `code` (file-contents dict) field of a success result. -/
def PyResult.codeOf : PyResult → List (String × String)
  | .success _ _ _ _ _ c _ _ _ _ _ _ => c
  | .failure _ => []

/-- The `deployment_url` field of a success result (`some none` = present but
`None`, i.e. no deployment happened). -/
def PyResult.urlOf : PyResult → Option (Option String)
  | .success _ _ _ _ _ _ _ _ _ u _ _ => some u
  | .failure _ => none

/-- Scrub the wall-clock-dependent fields (`elapsed_time`,
`summary.elapsed`) of a result, leaving everything else intact. -/
def PyResult.eraseTime : PyResult → PyResult
  | .success pid n d ft fs c v f _ u s cch =>
    .success pid n d ft fs c v f 0 u ⟨s.total_files, s.total_lines, 0⟩ cch
  | .failure e => .failure e

/-- One record of `progress_store`:
`{'running', 'step', 'total', 'message', 'result', 'start'}`. -/
structure Prog where
  running : Bool
  step : Nat
  total : Nat
  message : String
  result : Option PyResult
  start : Int
  deriving DecidableEq, Repr

/-- The mutable process state touched by a pipeline run: the SQLite table, the
fingerprint cache, the progress store, the per-session output directories
(`Config.OUTPUT_DIR / sid`), the wall clock (in milliseconds), a counter of
invocations of the external-model client (for frame claims), and the
chronological list of `step` values written by `ProjectGen.update`
(instrumentation for the progress-monotonicity claim). -/
structure World where
  db : Db
  cache : CStore PyResult
  progress : List (String × Prog)
  files : List (String × List (String × String))
  time : Int
  modelCalls : Nat
  trace : List Nat
  deriving DecidableEq, Repr

/-! ## Analysis objects and the simulation fallbacks -/

/-- One entry of an analysis's `testCases` list. -/
structure TestCase where
  name : String
  description : String
  steps : List String
  deriving DecidableEq, Repr

/-- One file descriptor of an analysis's `files` list.  Fields are optional
because an analysis produced by the external model is an arbitrary parsed JSON
dict; accessing a missing key raises `KeyError` (`ftype` models the `type`
key). -/
structure FileInfo where
  name : Option String
  ftype : Option String
  description : Option String
  deriving DecidableEq, Repr

/-- An analysis object: the dict produced by `APIClient.analyze` (either
parsed model output or the simulation fallback).  All keys optional, for the
same reason as `FileInfo`. -/
structure Analysis where
  projectName : Option String
  description : Option String
  features : Option (List String)
  architecture : Option (List (String × String))
  files : Option (List FileInfo)
  testCases : Option (List TestCase)
  deploymentConfig : Option (List (String × String))
  deriving DecidableEq, Repr

/-- Python `sub in s` substring test. -/
def hasSub (s sub : String) : Bool :=
  s.data.tails.any fun t => sub.data.isPrefixOf t

/-- `req.lower()`, character by character (ASCII lowering; the keyword tests
below only involve ASCII and Korean text, which `str.lower` leaves
unchanged). -/
def pyLower (s : String) : String := List.asString (s.data.map Char.toLower)

/-- `APIClient._sim_analyze(req)`: the deterministic keyword-matched local
fallback analysis. -/
def sim_analyze (req : String) : Analysis :=
  let req_lower := pyLower req
  let pf : String × List String :=
    if hasSub req_lower "todo" || hasSub req_lower "할 일" || hasSub req_lower "할일" then
      ("Todo Manager", ["Add/Delete tasks", "Complete checkbox", "Priority setting",
        "Google Sheets save", "Drag and drop"])
    else if hasSub req_lower "diary" || hasSub req_lower "일기" then
      ("AI Diary", ["Write diary", "AI emotion analysis", "Monthly stats",
        "Emotion graph", "Search diary"])
    else if hasSub req_lower "receipt" || hasSub req_lower "영수증" then
      ("Receipt Manager", ["Photo capture", "OCR recognition", "Auto categorization",
        "Monthly stats", "Category analysis"])
    else if hasSub req_lower "expense" || hasSub req_lower "가계부" || hasSub req_lower "지출" then
      ("Smart Budget", ["Income/Expense input", "Category classification",
        "Monthly stats", "Budget management", "Expense alerts"])
    else
      ("Custom App", ["Data input", "Save function", "View statistics", "Mobile optimized"])
  { projectName := some pf.1
    description := some (if req.length > 100 then req.take 100 else req)
    features := some pf.2
    architecture := some [("frontend", "HTML5, CSS3, JavaScript"),
      ("backend", "Google Apps Script"), ("storage", "Google Sheets"),
      ("ui", "Responsive Mobile UI")]
    files := some [⟨some "Code.js", some "gas", some "Backend logic"⟩,
      ⟨some "Index.html", some "html", some "UI interface"⟩]
    testCases := some [⟨"Basic test", "Function check", ["Input", "Save", "View"]⟩]
    deploymentConfig := some [("access", "ANYONE"), ("executeAs", "USER_DEPLOYING")] }
/-- The fixed backend-script template returned by `APIClient._sim_code` for file type `gas`. -/
def simGas : String :=
  "// Backend Logic - Google Apps Script\n// 한글 주석: 서버 사이드 코드\n\nfunction doGet() \x7b\n  // 웹앱 UI 표시\n  return HtmlService.createHtmlOutputFromFile(\x27Index\x27)\n    .setTitle(\x27App\x27)\n    .setFaviconUrl(\x27https://www.gstatic.com/images/branding/product/1x/apps_script_48dp.png\x27);\n\x7d\n\nfunction saveData(data) \x7b\n  try \x7b\n    var sheet = SpreadsheetApp.getActiveSpreadsheet().getActiveSheet();\n    var timestamp = new Date();\n    \n    // 데이터 저장\n    sheet.appendRow([\n      timestamp,\n      JSON.stringify(data),\n      data.title || \x27\x27,\n      data.status || \x27active\x27\n    ]);\n    \n    return \x7b\n      success: true,\n      message: \x27Saved successfully\x27,\n      timestamp: timestamp.toISOString()\n    \x7d;\n  \x7d catch(e) \x7b\n    Logger.log(\x27Save error: \x27 + e.toString());\n    return \x7b\n      success: false,\n      error: e.toString()\n    \x7d;\n  \x7d\n\x7d\n\nfunction loadData() \x7b\n  try \x7b\n    var sheet = SpreadsheetApp.getActiveSpreadsheet().getActiveSheet();\n    var data = sheet.getDataRange().getValues();\n    \n    // 헤더 제외\n    if (data.length > 1) \x7b\n      data = data.slice(1);\n    \x7d\n    \n    return \x7b\n      success: true,\n      data: data.map(function(row) \x7b\n        return \x7b\n          timestamp: row[0],\n          content: row[1],\n          title: row[2],\n          status: row[3]\n        \x7d;\n      \x7d)\n    \x7d;\n  \x7d catch(e) \x7b\n    Logger.log(\x27Load error: \x27 + e.toString());\n    return \x7b\n      success: false,\n      error: e.toString()\n    \x7d;\n  \x7d\n\x7d"

/-- The fixed markup/UI template returned by `APIClient._sim_code` for any non-`gas` file type. -/
def simHtml : String :=
  "<!DOCTYPE html>\n<html lang=\"ko\">\n<head>\n    <meta charset=\"UTF-8\">\n    <meta name=\"viewport\" content=\"width=device-width, initial-scale=1.0, maximum-scale=1.0, user-scalable=no\">\n    <meta name=\"mobile-web-app-capable\" content=\"yes\">\n    <meta name=\"apple-mobile-web-app-capable\" content=\"yes\">\n    <title>App</title>\n    <style>\n        * \x7b\n            margin: 0;\n            padding: 0;\n            box-sizing: border-box;\n        \x7d\n        \n        body \x7b\n            font-family: -apple-system, BlinkMacSystemFont, \x27Segoe UI\x27, Roboto, sans-serif;\n            background: linear-gradient(135deg, #667eea 0%, #764ba2 100%);\n            min-height: 100vh;\n            padding: 20px;\n        \x7d\n        \n        .container \x7b\n            max-width: 800px;\n            margin: 0 auto;\n            background: white;\n            border-radius: 20px;\n            padding: 30px;\n            box-shadow: 0 10px 40px rgba(0,0,0,0.2);\n        \x7d\n        \n        h1 \x7b\n            color: #667eea;\n            margin-bottom: 30px;\n            text-align: center;\n        \x7d\n        \n        .input-group \x7b\n            margin-bottom: 20px;\n        \x7d\n        \n        label \x7b\n            display: block;\n            font-weight: 600;\n            margin-bottom: 8px;\n            color: #333;\n        \x7d\n        \n        input[type=\"text\"], textarea \x7b\n            width: 100%;\n            padding: 15px;\n            border: 2px solid #e0e0e0;\n            border-radius: 12px;\n            font-size: 16px;\n            transition: all 0.3s;\n            font-family: inherit;\n        \x7d\n        \n        input:focus, textarea:focus \x7b\n            outline: none;\n            border-color: #667eea;\n            box-shadow: 0 0 0 3px rgba(102, 126, 234, 0.1);\n        \x7d\n        \n        textarea \x7b\n            min-height: 120px;\n            resize: vertical;\n        \x7d\n        \n        .btn \x7b\n            width: 100%;\n            padding: 18px;\n            background: linear-gradient(135deg, #667eea 0%, #764ba2 100%);\n            color: white;\n            border: none;\n            border-radius: 12px;\n            font-size: 16px;\n            font-weight: 700;\n            cursor: pointer;\n            transition: transform 0.2s;\n            margin-top: 10px;\n        \x7d\n        \n        .btn:active:not(:disabled) \x7b\n            transform: scale(0.98);\n        \x7d\n        \n        .btn:disabled \x7b\n            opacity: 0.6;\n            cursor: not-allowed;\n        \x7d\n        \n        .status \x7b\n            margin-top: 20px;\n            padding: 15px;\n            border-radius: 12px;\n            display: none;\n        \x7d\n        \n        .status.success \x7b\n            background: #d4edda;\n            color: #155724;\n        \x7d\n        \n        .status.error \x7b\n            background: #f8d7da;\n            color: #721c24;\n        \x7d\n        \n        @media (max-width: 768px) \x7b\n            .container \x7b\n                padding: 20px;\n            \x7d\n        \x7d\n    </style>\n</head>\n<body>\n    <div class=\"container\">\n        <h1>🎉 App Generated Successfully</h1>\n        \n        <div class=\"input-group\">\n            <label>📝 Title</label>\n            <input type=\"text\" id=\"title\" placeholder=\"Enter title\">\n        </div>\n        \n        <div class=\"input-group\">\n            <label>📄 Content</label>\n            <textarea id=\"content\" placeholder=\"Enter content\"></textarea>\n        </div>\n        \n        <button class=\"btn\" onclick=\"save()\">💾 Save</button>\n        <button class=\"btn\" style=\"background: linear-gradient(135deg, #6c757d 0%, #495057 100%);\" onclick=\"load()\">📋 Load</button>\n        \n        <div id=\"status\" class=\"status\"></div>\n    </div>\n    \n    <script>\n        function save() \x7b\n            const title = document.getElementById(\x27title\x27).value;\n            const content = document.getElementById(\x27content\x27).value;\n            \n            if (!title || !content) \x7b\n                showStatus(\x27Please enter both title and content\x27, \x27error\x27);\n                return;\n            \x7d\n            \n            const btn = event.target;\n            btn.disabled = true;\n            btn.textContent = \x27Saving...\x27;\n            \n            google.script.run\n                .withSuccessHandler(function(result) \x7b\n                    btn.disabled = false;\n                    btn.textContent = \x27💾 Save\x27;\n                    \n                    if (result.success) \x7b\n                        showStatus(\x27✅ \x27 + result.message, \x27success\x27);\n                        document.getElementById(\x27title\x27).value = \x27\x27;\n                        document.getElementById(\x27content\x27).value = \x27\x27;\n                    \x7d else \x7b\n                        showStatus(\x27❌ \x27 + result.error, \x27error\x27);\n                    \x7d\n                \x7d)\n                .withFailureHandler(function(error) \x7b\n                    btn.disabled = false;\n                    btn.textContent = \x27💾 Save\x27;\n                    showStatus(\x27❌ Error: \x27 + error, \x27error\x27);\n                \x7d)\n                .saveData(\x7b\n                    title: title,\n                    content: content,\n                    status: \x27active\x27\n                \x7d);\n        \x7d\n        \n        function load() \x7b\n            google.script.run\n                .withSuccessHandler(function(result) \x7b\n                    if (result.success && result.data) \x7b\n                        console.log(\x27Loaded:\x27, result.data);\n                        showStatus(\x27✅ Data loaded successfully\x27, \x27success\x27);\n                    \x7d else \x7b\n                        showStatus(\x27❌ \x27 + (result.error || \x27No data\x27), \x27error\x27);\n                    \x7d\n                \x7d)\n                .withFailureHandler(function(error) \x7b\n                    showStatus(\x27❌ Error: \x27 + error, \x27error\x27);\n                \x7d)\n                .loadData();\n        \x7d\n        \n        function showStatus(message, type) \x7b\n            const status = document.getElementById(\x27status\x27);\n            status.textContent = message;\n            status.className = \x27status \x27 + type;\n            status.style.display = \x27block\x27;\n            \n            setTimeout(function() \x7b\n                status.style.display = \x27none\x27;\n            \x7d, 3000);\n        \x7d\n    </script>\n</body>\n</html>"

/-- `APIClient._sim_code(finfo)` after the `finfo['type']` lookup: the canned
template keyed by file type (`gas` backend script vs anything else → UI
markup). -/
def sim_code (ftype : String) : String :=
  if ftype = "gas" then simGas else simHtml

/-! ## External collaborators -/

/-- The external text-generation model contract (`APIClient.analyze` /
`APIClient.gen_code` seen from `ProjectGen.run`); fallible.  The simulation
instantiation `simApi` below is the in-repo fallback used when the client is
unavailable. -/
structure ApiO where
  analyze : String → Option (String × Row) → Except Exc Analysis
  gen_code : Analysis → FileInfo → Option (String × Row) → Except Exc String

/-- Python `d[k]` on an optional field: the value, or `KeyError`. -/
def getItem {α : Type} (k : String) : Option α → Except Exc α
  | some a => .ok a
  | none => .error (.keyError k)

/-- The `APIClient` with no usable client (`real == False`): `analyze`
delegates to `_sim_analyze` and `gen_code` to `_sim_code(finfo)`, which reads
`finfo['type']`.  Neither consults the prior project state. -/
def simApi : ApiO where
  analyze := fun req _ => .ok (sim_analyze req)
  gen_code := fun _ fi _ =>
    match getItem "type" fi.ftype with
    | .error e => .error e
    | .ok t => .ok (sim_code t)

/-- The external deployment tool contract (`DeployManager.run_tests` /
`DeployManager.deploy` as invoked by stage 7); each hook may raise or report
unavailability. -/
structure DeployO where
  run_tests : Except Exc (Option Bool)
  deploy : Except Exc (Option String)

/-- External hash primitives from `hashlib`: the sha256 hex digest used by
`cache_key` and the md5 hex digest truncated by `run` for fresh project ids. -/
structure HashExt where
  sha256hex : String → String
  md5hex : String → String

/-- The `Config` knobs the pipeline reads. -/
structure Cfg where
  CACHE_ENABLED : Bool
  CACHE_TTL : Int

/-! ## The orchestrator (`ProjectGen`) -/

/-- A pipeline computation: explicit world passing with Python exceptions.
On an exception the world retains all effects performed before the raise. -/
def EStep (α : Type) : Type := World → Except Exc α × World

instance : Monad EStep where
  pure a := fun w => (.ok a, w)
  bind m k := fun w =>
    match m w with
    | (.ok a, w') => k a w'
    | (.error e, w') => (.error e, w')

/-- Run a pure `Except` computation (no world effect). -/
def EStep.lift {α : Type} (x : Except Exc α) : EStep α := fun w => (x, w)

/-- Apply a world transformation (an infallible side effect). -/
def EStep.mod (f : World → World) : EStep Unit := fun w => (.ok (), f w)

/-- `time.sleep(ms/1000)`: advance the wall clock. -/
def sleepW (w : World) (ms : Int) : World := { w with time := w.time + ms }

/-- The canonical stage labels of `ProjectGen.update`. -/
def stageMsgs : List String :=
  ["Analysis", "Design", "Code Generation", "Testing", "Configuration", "Saving", "Complete"]

/-- `msgs[step-1]` — Python indexing, so `step = 0` reads `msgs[-1]`
(`"Complete"`); `update` is never invoked with `step = 0` by the source, but
the model is total. -/
def defaultMsg (step : Nat) : String :=
  if step = 0 then "Complete" else stageMsgs.getD (step - 1) ""

/-- The message stored by `ProjectGen.update`:
`msg or msgs[step-1] if step <= len(msgs) else ''` — the conditional
expression binds loosest, so any `step > 7` stores `''` even when an explicit
message was passed, and a falsy (empty) explicit message falls back to the
canonical label. -/
def stepMessage (step : Nat) (msg : Option String) : String :=
  if step ≤ 7 then
    match msg with
    | some m => if m = "" then defaultMsg step else m
    | none => defaultMsg step
  else ""

/-- `ProjectGen.update(step, msg)`: mutate this session's progress record
(`KeyError` if the record is missing, as in Python) and record the written
step in the instrumentation trace. -/
def update (w : World) (sid : String) (step : Nat) (msg : Option String) :
    Except Exc World :=
  match aget w.progress sid with
  | none => .error (.keyError sid)
  | some p =>
    .ok { w with
      progress := aset w.progress sid { p with step := step, message := stepMessage step msg }
      trace := w.trace ++ [step] }

/-- `update` as a pipeline action. -/
def EStep.updateM (sid : String) (step : Nat) (msg : Option String) : EStep Unit :=
  fun w =>
    match update w sid step msg with
    | .ok w' => (.ok (), w')
    | .error e => (.error e, w)

/-- `get_cache(cache_key(req))` as a pipeline action (reads the clock, may
delete a stale entry, may raise on a `None` marker). -/
def EStep.getCache (cfg : Cfg) (ck : String) : EStep (Option PyResult) :=
  fun w =>
    match get_cache cfg.CACHE_ENABLED cfg.CACHE_TTL w.time w.cache ck with
    | .ok (res, store) => (.ok res, { w with cache := store })
    | .error e => (.error e, w)

/-- `ProjectState.load(self.proj_id) if self.proj_id else None` — note Python
truthiness: an empty-string id also skips the load. -/
def EStep.loadProj (proj_id : Option String) : EStep (Option (String × Row)) :=
  fun w =>
    (.ok (match proj_id with
      | some p => if p = "" then none else ProjectState.load w.db p
      | none => none), w)

/-- Invoke the external model's `analyze`; counts as one model invocation. -/
def EStep.callAnalyze (api : ApiO) (req : String) (proj : Option (String × Row)) :
    EStep Analysis :=
  fun w => (api.analyze req proj, { w with modelCalls := w.modelCalls + 1 })

/-- Invoke the external model's `gen_code`; counts as one model invocation. -/
def EStep.callGen (api : ApiO) (analysis : Analysis) (fi : FileInfo)
    (proj : Option (String × Row)) : EStep String :=
  fun w => (api.gen_code analysis fi proj, { w with modelCalls := w.modelCalls + 1 })

/-- `ProjectState.save` as a pipeline action (stage 6's single commit). -/
def EStep.saveProj (pid name code : String) (vars funcs : List String) : EStep Unit :=
  fun w =>
    (.ok (), { w with db := ProjectState.save w.db w.time pid name code vars funcs })

/-- `progress_store[self.sid]['start']` (KeyError when the record is gone). -/
def EStep.getStart (sid : String) : EStep Int :=
  fun w =>
    match aget w.progress sid with
    | some p => (.ok p.start, w)
    | none => (.error (.keyError sid), w)

/-- `time.time()`. -/
def EStep.getTime : EStep Int := fun w => (.ok w.time, w)

/-- `set_cache(ck, result)` as a pipeline action. -/
def EStep.setCacheM (cfg : Cfg) (ck : String) (result : PyResult) : EStep Unit :=
  fun w =>
    (.ok (), { w with cache := set_cache cfg.CACHE_ENABLED w.time w.cache ck result })

/-- The fixed stage-4 test stub `Test.js`. -/
def testJs : String :=
  "// Test\nfunction testAll() \x7b Logger.log(\x27Test complete\x27); \x7d"

/-- Quote a JSON string (none of the rendered strings need escaping). -/
def jsonQ (s : String) : String := "\"" ++ s ++ "\""

/-- Render the `webapp` object of `appsscript.json`. -/
def webappJson : List (String × String) → String
  | [] => "\x7b\x7d"
  | kvs =>
    "\x7b\n" ++
      String.intercalate ",\n"
        (kvs.map fun kv => "    " ++ jsonQ kv.1 ++ ": " ++ jsonQ kv.2) ++
      "\n  \x7d"

/-- The stage-5 deployment-configuration file: renders
`json.dumps({'timeZone': 'Asia/Seoul', 'runtimeVersion': 'V8', 'webapp':
analysis.get('deploymentConfig', {}), 'oauthScopes': [...]}, indent=2)`. -/
def appsscriptJson (webapp : List (String × String)) : String :=
  "\x7b\n  " ++ jsonQ "timeZone" ++ ": " ++ jsonQ "Asia/Seoul" ++ ",\n  " ++
    jsonQ "runtimeVersion" ++ ": " ++ jsonQ "V8" ++ ",\n  " ++
    jsonQ "webapp" ++ ": " ++ webappJson webapp ++ ",\n  " ++
    jsonQ "oauthScopes" ++ ": [\n    " ++
    jsonQ "https://www.googleapis.com/auth/spreadsheets" ++ "\n  ]\n\x7d"

/-- `len(c.split('\n'))` — the line count Python assigns to one file. -/
def pyLineCount (s : String) : Nat := s.data.count '\n' + 1

/-- `sum(len(c.split('\n')) for c in codes.values())`. -/
def totalLines (codes : List (String × String)) : Nat :=
  (codes.map fun kv => pyLineCount kv.2).sum

/-- Stage 6's directory write: `pdir.mkdir(exist_ok=True)` then
`(pdir / fn).write_text(code)` for each generated file, overwriting clashes
but preserving other files already in the session directory. -/
def writeFiles (w : World) (sid : String) (codes : List (String × String)) : World :=
  let dir := (aget w.files sid).getD []
  let dir := codes.foldl (fun d kv => aset d kv.1 kv.2) dir
  { w with files := aset w.files sid dir }

/-- The stage-3 loop: `for i, fi in enumerate(analysis['files'], 1)` —
report progress (`fi['name']` is read while formatting the message), invoke
the model (falling back per file inside `gen_code`), store the file text
under `fi['name']`, sleep. -/
def genLoop (api : ApiO) (sid : String) (analysis : Analysis)
    (proj : Option (String × Row)) (total : Nat) :
    List FileInfo → Nat → List (String × String) → EStep (List (String × String))
  | [], _, codes => pure codes
  | fi :: rest, i, codes => do
    let nm ← EStep.lift (getItem "name" fi.name)
    EStep.updateM sid 3
      (some ("Code Generation (" ++ toString i ++ "/" ++ toString total ++ "): " ++ nm))
    let code ← EStep.callGen api analysis fi proj
    EStep.mod (fun w => sleepW w 1000)
    genLoop api sid analysis proj total rest (i + 1) (aset codes nm code)

/-- Stage 7's deployment block: skipped by default; otherwise run the test
hook (its outcome is only logged) then the deploy hook. -/
def deploySection (skip_tests : Bool) (dep : DeployO) : EStep (Option String) :=
  if skip_tests then pure none
  else do
    let _ok ← EStep.lift dep.run_tests
    EStep.lift dep.deploy

/-- The body of `ProjectGen.run` (the code inside its `try`), stage for
stage.  See the claims' theorems for the per-stage reading. -/
def runBody (cfg : Cfg) (api : ApiO) (ext : HashExt) (dep : DeployO)
    (sid req : String) (proj_id : Option String) (skip_tests : Bool) :
    EStep PyResult := do
  let ck := ext.sha256hex req
  let cachedOpt ← EStep.getCache cfg ck
  match cachedOpt with
  | some cached => do
    EStep.updateM sid 7 (some "Cache loaded")
    EStep.mod (fun w => sleepW w 1000)
    pure cached
  | none => do
    let proj_state ← EStep.loadProj proj_id
    EStep.updateM sid 1 none
    let analysis ← EStep.callAnalyze api req proj_state
    EStep.updateM sid 2 none
    EStep.mod (fun w => sleepW w 500)
    EStep.updateM sid 3 none
    let files ← EStep.lift (getItem "files" analysis.files)
    let codes ← genLoop api sid analysis proj_state files.length files 1 []
    EStep.updateM sid 4 none
    let codes := aset codes "Test.js" testJs
    EStep.updateM sid 5 none
    let codes := aset codes "appsscript.json" (appsscriptJson (analysis.deploymentConfig.getD []))
    let pname ← EStep.lift (getItem "projectName" analysis.projectName)
    let pdesc ← EStep.lift (getItem "description" analysis.description)
    let codes := aset codes "README.md"
      ("# " ++ pname ++ "\n" ++ pdesc ++ "\n\nDeploy: https://script.google.com")
    EStep.updateM sid 6 none
    EStep.mod (fun w => writeFiles w sid codes)
    let main_code := (aget codes "Code.js").getD ""
    let vf := ProjectState.extract main_code
    let pid := match proj_id with
      | some p => if p = "" then (ext.md5hex req).take 12 else p
      | none => (ext.md5hex req).take 12
    EStep.saveProj pid (pname.take 50) main_code vf.1 vf.2
    EStep.updateM sid 7 none
    let deploy_url ← deploySection skip_tests dep
    let start ← EStep.getStart sid
    let tnow ← EStep.getTime
    let elapsed := tnow - start
    let feats ← EStep.lift (getItem "features" analysis.features)
    let result := PyResult.success pid pname pdesc feats (codes.map Prod.fst) codes
      vf.1 vf.2 elapsed deploy_url ⟨codes.length, totalLines codes, elapsed⟩ false
    EStep.setCacheM cfg ck result
    pure result

/-- `ProjectGen.run`: the body under its top-level `try/except`, which turns
any escaped exception into the structured failure dict
`{'success': False, 'error': str(e)}`. -/
def ProjectGen_run (cfg : Cfg) (api : ApiO) (ext : HashExt) (dep : DeployO)
    (sid req : String) (proj_id : Option String) (skip_tests : Bool)
    (w : World) : PyResult × World :=
  match runBody cfg api ext dep sid req proj_id skip_tests w with
  | (.ok r, w') => (r, w')
  | (.error e, w') => (.failure e.msg, w')

/-- `ProjectGen.__init__`'s progress-record creation:
`progress_store[sid] = {'running': True, 'step': 0, 'total': 7,
'message': 'Preparing...', 'result': None, 'start': time.time()}`. -/
def pg_init (sid : String) (w : World) : World :=
  { w with progress := aset w.progress sid ⟨true, 0, 7, "Preparing...", none, w.time⟩ }

/-- `bg_gen`: construct the generator (which registers the progress record),
run it, then flip `running` off and publish the result.  The final two
assignments would raise `KeyError` were the record missing; it never is (the
constructor creates it and nothing deletes it), and the model leaves the world
unchanged on that dead branch. -/
def bg_gen (cfg : Cfg) (api : ApiO) (ext : HashExt) (dep : DeployO)
    (sid req : String) (proj_id : Option String) (skip_tests : Bool)
    (w : World) : World :=
  let w1 := pg_init sid w
  let rw := ProjectGen_run cfg api ext dep sid req proj_id skip_tests w1
  match aget rw.2.progress sid with
  | some p =>
    { rw.2 with progress := aset rw.2.progress sid { p with running := false, result := some rw.1 } }
  | none => rw.2

/-! ## Auxiliary definitions used by the claims -/

/-- Keep the most recent `n` entries of a list (`l[-n:]` — exactly the
truncation `save` applies to a history). -/
def lastN {α : Type} (n : Nat) (l : List α) : List α := l.drop (l.length - n)

/-- The stored history for an id, `[]` when the row is absent (the list a
`save` call starts from). -/
def dbHist (db : Db) (pid : String) : List Rev :=
  match aget db pid with
  | some row => row.history
  | none => []

/-- The arguments of one `ProjectState.save` call (`now` being the clock at
that call). -/
structure SaveArgs where
  now : Int
  name : String
  code : String
  vars : List String
  funcs : List String
  deriving DecidableEq, Repr

/-- The revision that `save` appends for these arguments. -/
def SaveArgs.rev (a : SaveArgs) : Rev := ⟨a.now, a.code, a.vars, a.funcs⟩

/-- A chronological sequence of successful `save` calls against one id. -/
def saveSeq (db : Db) (pid : String) : List SaveArgs → Db
  | [] => db
  | a :: rest =>
    saveSeq (ProjectState.save db a.now pid a.name a.code a.vars a.funcs) pid rest

/-- The captures of the bare-`const` variable pattern alone. -/
def constVarNames (code : String) : List String :=
  (findall (tryDecl "const".data) code.data).map List.asString

/-- Instrumentation invariant for pipeline computations: running `m` appends
a block `ts` of progress steps to the trace such that `lo :: ts` (capped by
`hi` on success) is non-decreasing, and never deletes a session's progress
record.  `lo`/`hi` are the progress levels on entry and on successful exit. -/
def RunInv {α : Type} (lo hi : Nat) (m : EStep α) : Prop :=
  ∀ w, (∃ ts, (m w).2.trace = w.trace ++ ts ∧
      ((m w).1.isOk → List.Chain' (· ≤ ·) (lo :: (ts ++ [hi]))) ∧
      (¬ (m w).1.isOk → List.Chain' (· ≤ ·) (lo :: ts))) ∧
    (∀ s, (aget w.progress s).isSome → (aget (m w).2.progress s).isSome)

/-! # Theorems -/

/-! ## Association-list laws -/

theorem aget_aset {β : Type} (d : List (String × β)) (k : String) (v : β) :
    aget (aset d k v) k = some v := by
  induction d with
  | nil => simp [aget, aset]
  | cons h t ih =>
    by_cases hk : h.1 = k
    · simp [aset, hk, aget]
    · simp [aset, hk, aget, ih]

theorem aget_aset_ne {β : Type} (d : List (String × β)) (k k' : String) (v : β)
    (h : k ≠ k') : aget (aset d k v) k' = aget d k' := by
  induction d with
  | nil => simp [aget, aset, h]
  | cons hd t ih =>
    by_cases hk : hd.1 = k
    · simp [aset, hk, aget, h, hk.symm ▸ h]
    · simp [aset, hk, aget, ih]

/-! ## History-cap lemmas (claim C1) -/

theorem length_lastN {α : Type} (n : Nat) (l : List α) :
    (lastN n l).length = min n l.length := by
  simp [lastN]; omega

theorem lastN_of_le {α : Type} {n : Nat} {l : List α} (h : l.length ≤ n) :
    lastN n l = l := by
  simp [lastN, Nat.sub_eq_zero_of_le h]

theorem lastN_append {α : Type} (n : Nat) (xs ys : List α) :
    lastN n (xs ++ ys) =
      if n ≤ ys.length then lastN n ys else lastN (n - ys.length) xs ++ ys := by
  unfold lastN
  by_cases h : n ≤ ys.length
  · rw [if_pos h]
    have hk : (xs ++ ys).length - n = xs.length + (ys.length - n) := by
      simp; omega
    rw [hk, List.drop_append]
  · rw [if_neg h]
    have hle : (xs ++ ys).length - n ≤ xs.length := by simp; omega
    have hidx : (xs ++ ys).length - n = xs.length - (n - ys.length) := by
      simp; omega
    rw [List.drop_append_of_le_length hle, hidx]

theorem lastN_lastN {α : Type} (m n : Nat) (l : List α) (h : m ≤ n) :
    lastN m (lastN n l) = lastN m l := by
  unfold lastN
  rw [List.drop_drop]
  congr 1
  simp; omega

theorem lastN_append_absorb {α : Type} (n : Nat) (xs ys : List α) :
    lastN n (lastN n xs ++ ys) = lastN n (xs ++ ys) := by
  rw [lastN_append, lastN_append]
  by_cases h : n ≤ ys.length
  · simp [h]
  · simp [h, lastN_lastN _ _ _ (Nat.sub_le n ys.length)]

theorem save_hist (db : Db) (now : Int) (pid name code : String)
    (vars funcs : List String) :
    dbHist (ProjectState.save db now pid name code vars funcs) pid =
      lastN 10 (dbHist db pid ++ [⟨now, code, vars, funcs⟩]) := by
  simp only [ProjectState.save, dbHist, lastN, aget_aset]

theorem save_isSome (db : Db) (now : Int) (pid name code : String)
    (vars funcs : List String) :
    (aget (ProjectState.save db now pid name code vars funcs) pid).isSome := by
  simp [ProjectState.save, aget_aset]

theorem saveSeq_isSome (pid : String) (saves : List SaveArgs) :
    ∀ db : Db, (aget db pid).isSome → (aget (saveSeq db pid saves) pid).isSome := by
  induction saves with
  | nil => intro db h; simpa [saveSeq] using h
  | cons a rest ih => intro db _; exact ih _ (save_isSome ..)

theorem saveSeq_hist (pid : String) (saves : List SaveArgs) :
    ∀ db : Db, (dbHist db pid).length ≤ 10 →
      dbHist (saveSeq db pid saves) pid =
        lastN 10 (dbHist db pid ++ saves.map SaveArgs.rev) := by
  induction saves with
  | nil =>
    intro db h
    simp only [saveSeq, List.map_nil, List.append_nil]
    exact (lastN_of_le h).symm
  | cons a rest ih =>
    intro db h
    rw [saveSeq, ih _ (by rw [save_hist, length_lastN]; omega), save_hist,
      lastN_append_absorb]
    simp [SaveArgs.rev]

/-! ## Claim C1 — history cap -/

/-- **C1.** For every project id starting with no stored row, after the
successful `ProjectState.save` calls in `saves` (N = `saves.length`),
`ProjectState.load`'s history for that id is exactly the last 10 saved
revisions in save order (oldest first, FIFO eviction at capacity): 10 entries
when N ≥ 11, N entries when N ≤ 10. -/
theorem claim_C1_history_cap (db : Db) (pid : String) (saves : List SaveArgs)
    (hfresh : aget db pid = none) (hne : saves ≠ []) :
    ∃ row, ProjectState.load (saveSeq db pid saves) pid = some (pid, row) ∧
      row.history = (saves.map SaveArgs.rev).drop (saves.length - 10) ∧
      (11 ≤ saves.length → row.history.length = 10) ∧
      (saves.length ≤ 10 → row.history.length = saves.length) := by
  have hs : (aget (saveSeq db pid saves) pid).isSome := by
    match saves, hne with
    | a :: rest, _ =>
      rw [saveSeq]
      exact saveSeq_isSome pid rest _ (save_isSome ..)
  obtain ⟨row, hrow⟩ := Option.isSome_iff_exists.mp hs
  have hh := saveSeq_hist pid saves db (by simp [dbHist, hfresh])
  rw [dbHist] at hh
  rw [hrow] at hh
  simp only [dbHist, hfresh, List.nil_append] at hh
  have hlen : row.history.length = min 10 saves.length := by
    rw [hh, length_lastN, List.length_map]
  refine ⟨row, by simp [ProjectState.load, hrow], ?_, ?_, ?_⟩
  · rw [hh, lastN, List.length_map]
  · intro h11; omega
  · intro h10; omega

/-- Concrete instantiation of `claim_C1_history_cap`: twelve saves to a fresh
id leave exactly the last ten revisions, in order. -/
theorem claim_C1_history_cap_witness :
    ∃ row,
      ProjectState.load
        (saveSeq [] "p" ((List.range 12).map fun i => ⟨(i : Int), "n", "c", [], []⟩)) "p" =
        some ("p", row) ∧
      row.history =
        (((List.range 12).map fun i => (⟨(i : Int), "n", "c", [], []⟩ : SaveArgs)).map
          SaveArgs.rev).drop
          (((List.range 12).map fun i => (⟨(i : Int), "n", "c", [], []⟩ : SaveArgs)).length - 10) ∧
      (11 ≤ ((List.range 12).map fun i => (⟨(i : Int), "n", "c", [], []⟩ : SaveArgs)).length →
        row.history.length = 10) ∧
      (((List.range 12).map fun i => (⟨(i : Int), "n", "c", [], []⟩ : SaveArgs)).length ≤ 10 →
        row.history.length =
          ((List.range 12).map fun i => (⟨(i : Int), "n", "c", [], []⟩ : SaveArgs)).length) :=
  claim_C1_history_cap [] "p" _ rfl (by decide)

/-! ## Claim C2 — created_at is not preserved on upsert (code bug) -/

/-- **C2** fails on the code: `save` passes `now` for *both* `created_at` and
`updated_at` of the replaced row (`INSERT OR REPLACE ... (..., now, now)`), so
a second save at clock 5 over a row created at clock 0 stores
`created_at = 5`, not the preserved 0 the specification promises. -/
theorem claim_C2_created_at_overwritten :
    aget (ProjectState.save (ProjectState.save [] 0 "p" "n" "c" [] []) 5 "p" "n2" "c2" [] [])
        "p" =
      some ⟨"n2", "c2", [], [], [⟨0, "c", [], []⟩, ⟨5, "c2", [], []⟩], 5, 5⟩ ∧
    (5 : Int) ≠ 0 :=
  ⟨by decide, by decide⟩

/-! ## Claim C3 — disabled-cache put is not a no-op (code bug) -/

/-- **C3** fails on the code: with caching disabled, `set_cache` still writes —
`cache_store[k] = (d, time.time()) if Config.CACHE_ENABLED else None` assigns
the value `None` under `k` (the conditional expression selects the assigned
value, not the assignment), so the store changes from `[]` to a one-entry
map. -/
theorem claim_C3_disabled_put_writes_marker :
    set_cache false 0 ([] : CStore PyResult) "k" (.failure "r") = [("k", none)] ∧
      ([("k", (none : CEntry PyResult))] : CStore PyResult) ≠ [] :=
  ⟨by decide, by decide⟩

/-! ## Claim C4 — get semantics with lazy TTL expiry -/

/-- **C4.** `get_cache` returns absent when caching is disabled, when the key
is missing, or when the entry's age `now - t` has reached the TTL (deleting
the stale entry as a side effect); it returns the stored value, leaving the
store untouched, while the age is strictly below the TTL. -/
theorem claim_C4_get_cache_semantics (ttl now : Int) (store : CStore PyResult)
    (k : String) (d : PyResult) (t : Int) :
    (get_cache false ttl now store k = .ok (none, store)) ∧
    (aget store k = none → get_cache true ttl now store k = .ok (none, store)) ∧
    (aget store k = some (some (d, t)) → now - t < ttl →
      get_cache true ttl now store k = .ok (some d, store)) ∧
    (aget store k = some (some (d, t)) → ttl ≤ now - t →
      get_cache true ttl now store k = .ok (none, aerase store k)) := by
  refine ⟨rfl, ?_, ?_, ?_⟩
  · intro h; simp [get_cache, h]
  · intro h hlt; simp [get_cache, h, hlt]
  · intro h hge
    simp only [get_cache, Bool.not_true, Bool.false_eq_true, if_false, h]
    rw [if_neg (by omega)]

/-- Concrete instantiations of `claim_C4_get_cache_semantics`: a live entry is
returned, a stale one is deleted, and disabled/missing reads are absent. -/
theorem claim_C4_get_cache_semantics_witness :
    (get_cache true 3600 1000 [("k", some (PyResult.failure "r", 0))] "k" =
      .ok (some (PyResult.failure "r"), [("k", some (PyResult.failure "r", 0))])) ∧
    (get_cache true 3600 5000 [("k", some (PyResult.failure "r", 0))] "k" =
      .ok (none, [])) ∧
    (get_cache false 3600 0 ([] : CStore PyResult) "k" = .ok (none, [])) ∧
    (get_cache true 3600 0 ([] : CStore PyResult) "k" = .ok (none, [])) :=
  ⟨(claim_C4_get_cache_semantics 3600 1000 _ "k" (.failure "r") 0).2.2.1 (by decide)
      (by decide),
    (claim_C4_get_cache_semantics 3600 5000 _ "k" (.failure "r") 0).2.2.2 (by decide)
      (by decide),
    (claim_C4_get_cache_semantics 3600 0 [] "k" (.failure "r") 0).1,
    (claim_C4_get_cache_semantics 3600 0 [] "k" (.failure "r") 0).2.1 (by decide)⟩

/-! ## Pipeline reduction laws -/

theorem EStep.bind_apply {α β : Type} (m : EStep α) (k : α → EStep β) (w : World) :
    (m >>= k) w =
      match m w with
      | (.ok a, w') => k a w'
      | (.error e, w') => (.error e, w') := rfl

theorem EStep.pure_apply {α : Type} (a : α) (w : World) :
    (pure a : EStep α) w = (.ok a, w) := rfl

/-! ## Claim C6 — the orchestrator never propagates a raw exception -/

/-- **C6.** `ProjectGen.run` is total on its inputs: whatever the
configuration, external collaborators, arguments and starting world, the run
returns either the body's result unchanged, or — when the body raised any
exception not absorbed by a per-stage fallback — the structured failure dict
`{'success': False, 'error': str(e)}`; there is no third outcome and no
escaping exception. -/
theorem claim_C6_structured_failure (cfg : Cfg) (api : ApiO) (ext : HashExt)
    (dep : DeployO) (sid req : String) (proj_id : Option String)
    (skip_tests : Bool) (w : World) :
    (∃ r w', runBody cfg api ext dep sid req proj_id skip_tests w = (.ok r, w') ∧
      ProjectGen_run cfg api ext dep sid req proj_id skip_tests w = (r, w')) ∨
    (∃ e w', runBody cfg api ext dep sid req proj_id skip_tests w = (.error e, w') ∧
      ProjectGen_run cfg api ext dep sid req proj_id skip_tests w =
        (PyResult.failure e.msg, w') ∧
      (PyResult.failure e.msg).isOk = false) := by
  rcases hres : runBody cfg api ext dep sid req proj_id skip_tests w with ⟨res, w'⟩
  cases res with
  | ok r => exact Or.inl ⟨r, w', rfl, by unfold ProjectGen_run; rw [hres]⟩
  | error e => exact Or.inr ⟨e, w', rfl, by unfold ProjectGen_run; rw [hres], rfl⟩

/-! ## Claim C5 — a live cache hit bypasses all stage 1–6 side effects -/

/-- **C5.** When the requirements fingerprint has a live cache entry (caching
enabled, entry a pair, age strictly below the TTL) and this session's
progress record exists (as `ProjectGen.__init__` guarantees), `run` returns
the cached result and leaves the project table, the generated-file tree and
the external-model invocation count untouched. -/
theorem claim_C5_cache_hit_frame (cfg : Cfg) (api : ApiO) (ext : HashExt)
    (dep : DeployO) (sid req : String) (proj_id : Option String)
    (skip_tests : Bool) (w : World) (d : PyResult) (t : Int) (p : Prog)
    (hen : cfg.CACHE_ENABLED = true)
    (hhit : aget w.cache (ext.sha256hex req) = some (some (d, t)))
    (hlive : w.time - t < cfg.CACHE_TTL)
    (hp : aget w.progress sid = some p) :
    ∃ w', ProjectGen_run cfg api ext dep sid req proj_id skip_tests w = (d, w') ∧
      w'.db = w.db ∧ w'.files = w.files ∧ w'.modelCalls = w.modelCalls := by
  have hck : get_cache cfg.CACHE_ENABLED cfg.CACHE_TTL w.time w.cache
      (ext.sha256hex req) = .ok (some d, w.cache) := by
    rw [hen]; simp [get_cache, hhit, hlive]
  have hrb : runBody cfg api ext dep sid req proj_id skip_tests w =
      (.ok d,
        sleepW
          { w with
            progress := aset w.progress sid
              { p with step := 7, message := stepMessage 7 (some "Cache loaded") }
            trace := w.trace ++ [7] } 1000) := by
    simp only [runBody, EStep.bind_apply, EStep.getCache, hck, EStep.updateM, update,
      hp, EStep.mod, EStep.pure_apply]
  refine ⟨sleepW
      { w with
        progress := aset w.progress sid
          { p with step := 7, message := stepMessage 7 (some "Cache loaded") }
        trace := w.trace ++ [7] } 1000, ?_, rfl, rfl, rfl⟩
  unfold ProjectGen_run; rw [hrb]

/-- Concrete instantiation of `claim_C5_cache_hit_frame`: a one-entry cache,
identity hash, a failing model client; the cached payload is returned and the
table/files/model-call count are untouched. -/
theorem claim_C5_cache_hit_frame_witness :
    ∃ w',
      ProjectGen_run ⟨true, 3600⟩
          ⟨fun _ _ => .error (.err "down"), fun _ _ _ => .error (.err "down")⟩
          ⟨fun s => s, fun s => s⟩ ⟨.ok none, .ok none⟩ "s" "r" none true
          ⟨[], [("r", some (PyResult.failure "X", 0))],
            [("s", ⟨true, 0, 7, "Preparing...", none, 0⟩)], [], 5, 0, []⟩ =
        (PyResult.failure "X", w') ∧
      w'.db = [] ∧ w'.files = [] ∧ w'.modelCalls = 0 :=
  claim_C5_cache_hit_frame ⟨true, 3600⟩
    ⟨fun _ _ => .error (.err "down"), fun _ _ _ => .error (.err "down")⟩
    ⟨fun s => s, fun s => s⟩ ⟨.ok none, .ok none⟩ "s" "r" none true
    ⟨[], [("r", some (PyResult.failure "X", 0))],
      [("s", ⟨true, 0, 7, "Preparing...", none, 0⟩)], [], 5, 0, []⟩
    (PyResult.failure "X") 0 ⟨true, 0, 7, "Preparing...", none, 0⟩
    rfl (by decide) (by decide) (by decide)

/-! ## Claim C9 — the todo-list example scenario -/

/-- **C9.** With requirements `"Build a todo list app"`, no prior project id,
caching disabled, the external model unavailable (simulation fallback), and
the default skip-deploy setting, a freshly constructed session's run yields
the todo-themed fallback analysis (`projectName = "Todo Manager"`), a success
result named accordingly whose file set contains the backend code file, UI
index file, test stub, deployment-config file and readme, and no deployment
URL — for every starting world, session id and hash/deployer collaborators. -/
theorem claim_C9_todo_scenario (ext : HashExt) (dep : DeployO) (sid : String)
    (w0 : World) :
    (sim_analyze "Build a todo list app").projectName = some "Todo Manager" ∧
    (ProjectGen_run ⟨false, 3600⟩ simApi ext dep sid "Build a todo list app" none true
        (pg_init sid w0)).1.isOk = true ∧
    (ProjectGen_run ⟨false, 3600⟩ simApi ext dep sid "Build a todo list app" none true
        (pg_init sid w0)).1.nameOf = some "Todo Manager" ∧
    ["Code.js", "Index.html", "Test.js", "appsscript.json", "README.md"] ⊆
      (ProjectGen_run ⟨false, 3600⟩ simApi ext dep sid "Build a todo list app" none true
        (pg_init sid w0)).1.filesOf ∧
    (ProjectGen_run ⟨false, 3600⟩ simApi ext dep sid "Build a todo list app" none true
        (pg_init sid w0)).1.urlOf = some none := by
  have hana : sim_analyze "Build a todo list app" =
      ⟨some "Todo Manager",
        some "Build a todo list app",
        some ["Add/Delete tasks", "Complete checkbox", "Priority setting",
          "Google Sheets save", "Drag and drop"],
        some [("frontend", "HTML5, CSS3, JavaScript"), ("backend", "Google Apps Script"),
          ("storage", "Google Sheets"), ("ui", "Responsive Mobile UI")],
        some [⟨some "Code.js", some "gas", some "Backend logic"⟩,
          ⟨some "Index.html", some "html", some "UI interface"⟩],
        some [⟨"Basic test", "Function check", ["Input", "Save", "View"]⟩],
        some [("access", "ANYONE"), ("executeAs", "USER_DEPLOYING")]⟩ := by decide
  refine ⟨by rw [hana], ?_, ?_, ?_, ?_⟩ <;>
    simp only [ProjectGen_run, runBody, EStep.bind_apply, EStep.pure_apply, EStep.getCache,
      get_cache, EStep.loadProj, EStep.updateM, update, EStep.callAnalyze, EStep.callGen,
      EStep.mod, EStep.lift, EStep.saveProj, EStep.getStart, EStep.getTime, EStep.setCacheM,
      set_cache, simApi, getItem, genLoop, deploySection, aget_aset, pg_init, sleepW,
      writeFiles, sim_code, hana, Bool.not_false, if_true, reduceIte, PyResult.isOk,
      PyResult.nameOf, PyResult.filesOf, PyResult.urlOf]
  decide

/-! ## Claim C8 — fallback determinism -/

/-- **C8.** With the external model forced into the simulation fallback
(`simApi`), the fallback never raises and is deterministic: `analyze` yields
exactly `_sim_analyze(req)` whatever prior project context it is handed,
`gen_code` yields exactly the canned template for the descriptor's type, and
two whole runs over identical requirements text — in different sessions,
worlds and clock states, with caching disabled — return results identical in
every field except the wall-clock `elapsed` values. -/
theorem claim_C8_fallback_determinism (cfg : Cfg) (ext : HashExt)
    (dep1 dep2 : DeployO) (sid1 sid2 req : String) (proj_id : Option String)
    (w1 w2 : World) (p1 p2 : Prog)
    (hen : cfg.CACHE_ENABLED = false)
    (hp1 : aget w1.progress sid1 = some p1)
    (hp2 : aget w2.progress sid2 = some p2) :
    (∀ proj, simApi.analyze req proj = .ok (sim_analyze req)) ∧
    (∀ a fi proj t, fi.ftype = some t → simApi.gen_code a fi proj = .ok (sim_code t)) ∧
    (ProjectGen_run cfg simApi ext dep1 sid1 req proj_id true w1).1.eraseTime =
      (ProjectGen_run cfg simApi ext dep2 sid2 req proj_id true w2).1.eraseTime := by
  obtain ⟨en, ttl⟩ := cfg
  simp only [Cfg.CACHE_ENABLED] at hen
  subst hen
  refine ⟨fun proj => rfl, fun a fi proj t ht => by simp [simApi, getItem, ht], ?_⟩
  simp only [ProjectGen_run, runBody, EStep.bind_apply, EStep.pure_apply, EStep.getCache,
    get_cache, EStep.loadProj, EStep.updateM, update, EStep.callAnalyze, EStep.callGen,
    EStep.mod, EStep.lift, EStep.saveProj, EStep.getStart, EStep.getTime, EStep.setCacheM,
    set_cache, simApi, getItem, genLoop, deploySection, aget_aset, pg_init, sleepW,
    writeFiles, sim_code, sim_analyze, hp1, hp2, Bool.not_false, if_true, reduceIte,
    PyResult.eraseTime]

/-- Concrete instantiation of `claim_C8_fallback_determinism`: two sessions,
started at different clocks, over the same requirements text. -/
theorem claim_C8_fallback_determinism_witness :
    (∀ proj, simApi.analyze "r" proj = .ok (sim_analyze "r")) ∧
    (∀ a fi proj t, fi.ftype = some t → simApi.gen_code a fi proj = .ok (sim_code t)) ∧
    (ProjectGen_run ⟨false, 3600⟩ simApi ⟨fun s => s, fun s => s⟩ ⟨.ok none, .ok none⟩
        "s1" "r" none true
        ⟨[], [], [("s1", ⟨true, 0, 7, "Preparing...", none, 0⟩)], [], 0, 0, []⟩).1.eraseTime =
      (ProjectGen_run ⟨false, 3600⟩ simApi ⟨fun s => s, fun s => s⟩ ⟨.ok none, .ok none⟩
        "s2" "r" none true
        ⟨[], [], [("s2", ⟨true, 0, 7, "Preparing...", none, 9⟩)], [], 9, 0, []⟩).1.eraseTime :=
  claim_C8_fallback_determinism ⟨false, 3600⟩ ⟨fun s => s, fun s => s⟩
    ⟨.ok none, .ok none⟩ ⟨.ok none, .ok none⟩ "s1" "s2" "r" none
    ⟨[], [], [("s1", ⟨true, 0, 7, "Preparing...", none, 0⟩)], [], 0, 0, []⟩
    ⟨[], [], [("s2", ⟨true, 0, 7, "Preparing...", none, 9⟩)], [], 9, 0, []⟩
    ⟨true, 0, 7, "Preparing...", none, 0⟩ ⟨true, 0, 7, "Preparing...", none, 9⟩
    rfl (by decide) (by decide)

/-! ## Claim C7 -- progress monotonicity and final session state -/

theorem aget_aset_isSome {β : Type} (d : List (String × β)) (k k' : String) (v : β)
    (h : (aget d k').isSome) : (aget (aset d k v) k').isSome := by
  by_cases hk : k = k'
  · subst hk; simp [aget_aset]
  · rwa [aget_aset_ne _ _ _ _ hk]

theorem chain'_glue {l r : List Nat} {a m : Nat}
    (h1 : List.Chain' (· ≤ ·) (a :: (l ++ [m])))
    (h2 : List.Chain' (· ≤ ·) (m :: r)) :
    List.Chain' (· ≤ ·) (a :: (l ++ r)) := by
  induction l generalizing a with
  | nil =>
    simp only [List.nil_append] at *
    rcases List.chain'_cons.mp h1 with ⟨ham, _⟩
    cases r with
    | nil => simp
    | cons b r' =>
      rcases List.chain'_cons.mp h2 with ⟨hmb, hbr⟩
      exact List.chain'_cons.mpr ⟨le_trans ham hmb, hbr⟩
  | cons x l' ih =>
    rcases List.chain'_cons.mp h1 with ⟨hax, hxl⟩
    exact List.chain'_cons.mpr ⟨hax, ih hxl⟩

theorem RunInv.bind {α β : Type} {lo mid hi : Nat} {m : EStep α} {k : α → EStep β}
    (hm : RunInv lo mid m) (hk : ∀ a, RunInv mid hi (k a)) :
    RunInv lo hi (m >>= k) := by
  intro w
  rcases hmw : m w with ⟨res, w1⟩
  have hm' := hm w
  rw [hmw] at hm'
  rcases hm' with ⟨⟨ts1, htr1, hok1, hfail1⟩, hpres1⟩
  cases res with
  | error e =>
    refine ⟨⟨ts1, ?_, ?_, ?_⟩, ?_⟩ <;>
      simp only [EStep.bind_apply, hmw]
    · exact htr1
    · intro h; exact absurd h (by simp [Except.isOk, Except.toBool])
    · intro _; exact hfail1 (by simp [Except.isOk, Except.toBool])
    · exact hpres1
  | ok a =>
    have hk' := hk a w1
    rcases hkw : k a w1 with ⟨res2, w2⟩
    rw [hkw] at hk'
    rcases hk' with ⟨⟨ts2, htr2, hok2, hfail2⟩, hpres2⟩
    have hchainok := hok1 (by simp [Except.isOk, Except.toBool])
    refine ⟨⟨ts1 ++ ts2, ?_, ?_, ?_⟩, ?_⟩ <;>
      simp only [EStep.bind_apply, hmw, hkw]
    · rw [htr2, htr1, List.append_assoc]
    · intro h
      have h2 := hok2 h
      have := chain'_glue hchainok h2
      rwa [List.append_assoc]
    · intro h
      have h2 := hfail2 h
      exact chain'_glue hchainok h2
    · intro s hs
      exact hpres2 s (hpres1 s hs)

theorem runInv_inert {α : Type} (n : Nat) (m : EStep α)
    (ht : ∀ w, (m w).2.trace = w.trace)
    (hp : ∀ w, (m w).2.progress = w.progress) :
    RunInv n n m := by
  intro w
  refine ⟨⟨[], by simp [ht w], ?_, ?_⟩, fun s hs => by rw [hp w]; exact hs⟩
  · intro _; simp [List.chain'_cons]
  · intro _; simp

theorem update_ok {w : World} {sid : String} {step : Nat} {msg : Option String}
    {w' : World} (h : update w sid step msg = .ok w') :
    ∃ p, aget w.progress sid = some p ∧
      w' = { w with
        progress := aset w.progress sid
          { p with step := step, message := stepMessage step msg }
        trace := w.trace ++ [step] } := by
  unfold update at h
  cases hp : aget w.progress sid with
  | none => rw [hp] at h; cases h
  | some p => rw [hp] at h; exact ⟨p, rfl, (Except.ok.inj h).symm⟩

theorem runInv_updateM (sid : String) (msg : Option String) {lo step : Nat}
    (h : lo ≤ step) : RunInv lo step (EStep.updateM sid step msg) := by
  intro w
  cases hup : update w sid step msg with
  | error e =>
    refine ⟨⟨[], ?_, ?_, ?_⟩, ?_⟩ <;> simp only [EStep.updateM, hup]
    · simp
    · intro hok; simp [Except.isOk, Except.toBool] at hok
    · intro _; simp
    · intro s hs; exact hs
  | ok w' =>
    obtain ⟨p, hp, hw'⟩ := update_ok hup
    subst hw'
    refine ⟨⟨[step], ?_, ?_, ?_⟩, ?_⟩
    · simp [EStep.updateM, hup]
    · intro _; simp [EStep.updateM, hup, List.chain'_cons]; try omega
    · intro _; simp [EStep.updateM, hup, List.chain'_cons]; try omega
    · intro s hs
      simp only [EStep.updateM, hup]
      exact aget_aset_isSome _ _ _ _ hs

theorem runInv_genLoop (api : ApiO) (sid : String) (analysis : Analysis)
    (proj : Option (String × Row)) (total : Nat) :
    ∀ (files : List FileInfo) (i : Nat) (codes : List (String × String)),
      RunInv 3 3 (genLoop api sid analysis proj total files i codes) := by
  intro files
  induction files with
  | nil =>
    intro i codes
    exact runInv_inert 3 _ (fun w => rfl) (fun w => rfl)
  | cons fi rest ih =>
    intro i codes
    simp only [genLoop]
    exact RunInv.bind (runInv_inert 3 _ (fun w => rfl) (fun w => rfl))
      (fun nm => RunInv.bind (runInv_updateM sid _ (le_refl 3))
        (fun _ => RunInv.bind (runInv_inert 3 _ (fun w => rfl) (fun w => rfl))
          (fun code => RunInv.bind (runInv_inert 3 _ (fun w => rfl) (fun w => rfl))
            (fun _ => ih (i + 1) (aset codes nm code)))))

theorem runInv_getCache (cfg : Cfg) (ck : String) (n : Nat) :
    RunInv n n (EStep.getCache cfg ck) := by
  refine runInv_inert n _ (fun w => ?_) (fun w => ?_) <;>
    · cases hg : get_cache cfg.CACHE_ENABLED cfg.CACHE_TTL w.time w.cache ck with
      | error e => simp [EStep.getCache, hg]
      | ok rs => rcases rs with ⟨res, store⟩; simp [EStep.getCache, hg]

theorem runInv_deploySection (skip_tests : Bool) (dep : DeployO) :
    RunInv 7 7 (deploySection skip_tests dep) := by
  refine runInv_inert 7 _ (fun w => ?_) (fun w => ?_) <;>
    · cases skip_tests with
      | true => rfl
      | false =>
        cases ht : dep.run_tests with
        | error e => simp [deploySection, EStep.bind_apply, EStep.lift, ht]
        | ok tb =>
          cases hd : dep.deploy with
          | error e => simp [deploySection, EStep.bind_apply, EStep.lift, ht, hd]
          | ok u => simp [deploySection, EStep.bind_apply, EStep.lift, ht, hd]

theorem runInv_getStart (sid : String) (n : Nat) : RunInv n n (EStep.getStart sid) := by
  refine runInv_inert n _ (fun w => ?_) (fun w => ?_) <;>
    cases hp : aget w.progress sid <;> simp [EStep.getStart, hp]

theorem runInv_runBody (cfg : Cfg) (api : ApiO) (ext : HashExt) (dep : DeployO)
    (sid req : String) (proj_id : Option String) (skip_tests : Bool) :
    RunInv 0 7 (runBody cfg api ext dep sid req proj_id skip_tests) := by
  simp only [runBody]
  refine RunInv.bind (runInv_getCache cfg _ 0) (fun cachedOpt => ?_)
  cases cachedOpt with
  | some cached =>
    exact RunInv.bind (runInv_updateM sid _ (by omega))
      (fun _ => RunInv.bind (runInv_inert 7 _ (fun w => rfl) (fun w => rfl))
        (fun _ => runInv_inert 7 _ (fun w => rfl) (fun w => rfl)))
  | none =>
    refine RunInv.bind (runInv_inert 0 _ (fun w => rfl) (fun w => rfl)) (fun proj_state => ?_)
    refine RunInv.bind (runInv_updateM sid _ (by omega)) (fun _ => ?_)
    refine RunInv.bind (runInv_inert 1 _ (fun w => rfl) (fun w => rfl)) (fun analysis => ?_)
    refine RunInv.bind (runInv_updateM sid _ (by omega)) (fun _ => ?_)
    refine RunInv.bind (runInv_inert 2 _ (fun w => rfl) (fun w => rfl)) (fun _ => ?_)
    refine RunInv.bind (runInv_updateM sid _ (by omega)) (fun _ => ?_)
    refine RunInv.bind (runInv_inert 3 _ (fun w => rfl) (fun w => rfl)) (fun files => ?_)
    refine RunInv.bind (runInv_genLoop api sid analysis proj_state files.length files 1 [])
      (fun codes => ?_)
    refine RunInv.bind (runInv_updateM sid _ (by omega)) (fun _ => ?_)
    refine RunInv.bind (runInv_updateM sid _ (by omega)) (fun _ => ?_)
    refine RunInv.bind (runInv_inert 5 _ (fun w => rfl) (fun w => rfl)) (fun pname => ?_)
    refine RunInv.bind (runInv_inert 5 _ (fun w => rfl) (fun w => rfl)) (fun pdesc => ?_)
    refine RunInv.bind (runInv_updateM sid _ (by omega)) (fun _ => ?_)
    refine RunInv.bind (runInv_inert 6 _ (fun w => rfl) (fun w => rfl)) (fun _ => ?_)
    refine RunInv.bind (runInv_inert 6 _ (fun w => rfl) (fun w => rfl)) (fun _ => ?_)
    refine RunInv.bind (runInv_updateM sid _ (by omega)) (fun _ => ?_)
    refine RunInv.bind (runInv_deploySection skip_tests dep) (fun deploy_url => ?_)
    refine RunInv.bind (runInv_getStart sid 7) (fun start => ?_)
    refine RunInv.bind (runInv_inert 7 _ (fun w => rfl) (fun w => rfl)) (fun tnow => ?_)
    refine RunInv.bind (runInv_inert 7 _ (fun w => rfl) (fun w => rfl)) (fun feats => ?_)
    exact RunInv.bind (runInv_inert 7 _ (fun w => rfl) (fun w => rfl))
      (fun _ => runInv_inert 7 _ (fun w => rfl) (fun w => rfl))

theorem run_world_eq (cfg : Cfg) (api : ApiO) (ext : HashExt) (dep : DeployO)
    (sid req : String) (proj_id : Option String) (skip_tests : Bool) (w : World) :
    (ProjectGen_run cfg api ext dep sid req proj_id skip_tests w).2 =
      (runBody cfg api ext dep sid req proj_id skip_tests w).2 := by
  rcases h : runBody cfg api ext dep sid req proj_id skip_tests w with ⟨res, w'⟩
  cases res <;> simp [ProjectGen_run, h]

/-- **C7.** For any single session (any configuration, collaborators,
arguments and starting world), the sequence of `step` values written by that
session's run — starting from the `0` set at construction — is monotonically
non-decreasing, and when `bg_gen` finishes, the session's progress record has
`running = false` and a non-null `result`. -/
theorem claim_C7_progress_monotone (cfg : Cfg) (api : ApiO) (ext : HashExt) (dep : DeployO)
    (sid req : String) (proj_id : Option String) (skip_tests : Bool) (w : World)
    (h0 : w.trace = []) :
    List.Chain' (· ≤ ·)
      (0 :: (bg_gen cfg api ext dep sid req proj_id skip_tests w).trace) ∧
    ∃ p, aget (bg_gen cfg api ext dep sid req proj_id skip_tests w).progress sid = some p ∧
      p.running = false ∧ p.result.isSome := by
  obtain ⟨⟨ts, htr, hok, hfail⟩, hpres⟩ :=
    runInv_runBody cfg api ext dep sid req proj_id skip_tests (pg_init sid w)
  have hinit : (pg_init sid w).trace = [] := h0
  have hchain : List.Chain' (· ≤ ·) (0 :: ts) := by
    by_cases hok' : (runBody cfg api ext dep sid req proj_id skip_tests (pg_init sid w)).1.isOk
    · have hc := hok hok'
      have hc' : List.Chain' (· ≤ ·) ((0 :: ts) ++ [7]) := by simpa using hc
      exact (List.chain'_append.mp hc').1
    · exact hfail hok'
  set RW := ProjectGen_run cfg api ext dep sid req proj_id skip_tests (pg_init sid w) with hRW
  have hsome : (aget RW.2.progress sid).isSome := by
    rw [hRW, run_world_eq]
    exact hpres sid (by simp [pg_init, aget_aset])
  obtain ⟨p0, hp0⟩ := Option.isSome_iff_exists.mp hsome
  have hbg : bg_gen cfg api ext dep sid req proj_id skip_tests w =
      { RW.2 with
        progress := aset RW.2.progress sid
          { p0 with running := false, result := some RW.1 } } := by
    simp only [bg_gen, ← hRW]
    rw [hp0]
  constructor
  · rw [hbg]
    show List.Chain' (· ≤ ·) (0 :: RW.2.trace)
    rw [hRW, run_world_eq, htr, hinit]
    simpa using hchain
  · refine ⟨{ p0 with running := false, result := some RW.1 }, ?_, rfl, by simp⟩
    rw [hbg]
    show aget (aset _ sid _) sid = _
    rw [aget_aset]

/-- Concrete instantiation of `claim_C7_progress_monotone`: a session whose
model client fails immediately still shows a monotone step trace and a
finished record with a (failure) result. -/
theorem claim_C7_progress_monotone_witness :
    List.Chain' (· ≤ ·)
      (0 :: (bg_gen ⟨false, 3600⟩
          ⟨fun _ _ => .error (.err "down"), fun _ _ _ => .error (.err "down")⟩
          ⟨fun s => s, fun s => s⟩ ⟨.ok none, .ok none⟩ "s" "r" none true
          ⟨[], [], [], [], 0, 0, []⟩).trace) ∧
    ∃ p, aget (bg_gen ⟨false, 3600⟩
          ⟨fun _ _ => .error (.err "down"), fun _ _ _ => .error (.err "down")⟩
          ⟨fun s => s, fun s => s⟩ ⟨.ok none, .ok none⟩ "s" "r" none true
          ⟨[], [], [], [], 0, 0, []⟩).progress "s" = some p ∧
      p.running = false ∧ p.result.isSome :=
  claim_C7_progress_monotone ⟨false, 3600⟩
    ⟨fun _ _ => .error (.err "down"), fun _ _ _ => .error (.err "down")⟩
    ⟨fun s => s, fun s => s⟩ ⟨.ok none, .ok none⟩ "s" "r" none true
    ⟨[], [], [], [], 0, 0, []⟩ rfl

/-! ## Claim C10 -- const-arrow function names versus the variable scan -/

theorem takeSpc_append (s : List Char) : (takeSpc s).1 ++ (takeSpc s).2 = s := by
  induction s with
  | nil => rfl
  | cons c cs ih =>
    by_cases h : isSpc c
    · simp [takeSpc, h, ih]
    · simp [takeSpc, h]

theorem takeWord_append (s : List Char) : (takeWord s).1 ++ (takeWord s).2 = s := by
  induction s with
  | nil => rfl
  | cons c cs ih =>
    by_cases h : isWordChar c
    · simp [takeWord, h, ih]
    · simp [takeWord, h]

theorem takeSpc_isSpc (s : List Char) : ∀ c ∈ (takeSpc s).1, isSpc c = true := by
  induction s with
  | nil => simp [takeSpc]
  | cons c cs ih =>
    by_cases h : isSpc c
    · simp only [takeSpc, h, if_true]
      intro x hx
      rcases List.mem_cons.mp hx with hx | hx
      · subst hx; exact h
      · exact ih x hx
    · simp [takeSpc, h]

theorem takeWord_isWord (s : List Char) : ∀ c ∈ (takeWord s).1, isWordChar c = true := by
  induction s with
  | nil => simp [takeWord]
  | cons c cs ih =>
    by_cases h : isWordChar c
    · simp only [takeWord, h, if_true]
      intro x hx
      rcases List.mem_cons.mp hx with hx | hx
      · subst hx; exact h
      · exact ih x hx
    · simp [takeWord, h]

theorem takeWord_rest (s : List Char) :
    ∀ c cs, (takeWord s).2 = c :: cs → isWordChar c = false := by
  induction s with
  | nil => simp [takeWord]
  | cons c cs ih =>
    by_cases h : isWordChar c
    · simp only [takeWord, h, if_true]
      exact ih
    · simp only [takeWord, h, if_false]
      intro x xs hx
      injection hx with h1 _
      subst h1
      simpa using h

theorem stripPfx_eq {kw s r : List Char} (h : stripPfx kw s = some r) : s = kw ++ r := by
  induction kw generalizing s with
  | nil => simp [stripPfx] at h; simp [h]
  | cons k ks ih =>
    cases s with
    | nil => simp [stripPfx] at h
    | cons c cs =>
      by_cases hc : c = k
      · subst hc
        simp only [stripPfx, if_pos rfl] at h
        simp [ih h]
      · simp [stripPfx, hc] at h

theorem tryDecl_decomp {kw s w r : List Char} (h : tryDecl kw s = some (w, r)) :
    ∃ sp, s = kw ++ (sp ++ (w ++ r)) ∧ sp ≠ [] ∧ (∀ c ∈ sp, isSpc c = true) ∧
      w ≠ [] ∧ (∀ c ∈ w, isWordChar c = true) ∧
      (∀ c cs, r = c :: cs → isWordChar c = false) := by
  unfold tryDecl at h
  split at h
  · cases h
  rename_i r0 hs
  split at h
  · cases h
  rename_i c0 sp' r1 hsp
  split at h
  · cases h
  rename_i wc rc hne hwd
  obtain ⟨hw, hr⟩ := Prod.mk.inj (Option.some.inj h)
  subst hw
  subst hr
  have hsp0 := takeSpc_append r0
  rw [hsp] at hsp0
  have hsp1 := takeSpc_isSpc r0
  rw [hsp] at hsp1
  have hwd0 := takeWord_append r1
  rw [hwd] at hwd0
  have hwd1 := takeWord_isWord r1
  rw [hwd] at hwd1
  have hwd2 := takeWord_rest r1
  rw [hwd] at hwd2
  refine ⟨c0 :: sp', ?_, by simp, hsp1, fun hx => hne hx, hwd1, hwd2⟩
  rw [stripPfx_eq hs, ← hsp0, ← hwd0]

theorem tryDecl_head_ne {k c : Char} {ks t : List Char} (hc : c ≠ k) :
    tryDecl (k :: ks) (c :: t) = none := by
  simp [tryDecl, stripPfx, hc]

theorem tryConstArrow_head_ne {c : Char} {t : List Char} (hc : c ≠ 'c') :
    tryConstArrow (c :: t) = none := by
  simp [tryConstArrow, tryDecl_head_ne hc]

theorem tryConstArrow_tryDecl {s w r : List Char} (h : tryConstArrow s = some (w, r)) :
    ∃ sp2 sp3, tryDecl ['c', 'o', 'n', 's', 't'] s =
        some (w, sp2 ++ '=' :: (sp3 ++ '(' :: r)) ∧
      (∀ c ∈ sp2, isSpc c = true) ∧ (∀ c ∈ sp3, isSpc c = true) := by
  unfold tryConstArrow at h
  split at h
  · cases h
  rename_i wc r2 hd
  split at h
  rename_i r3' hsp2
  · split at h
    rename_i r4' hsp3
    · obtain ⟨hw, hr⟩ := Prod.mk.inj (Option.some.inj h)
      subst hw
      subst hr
      have hsp0 := takeSpc_append r2
      have hsp1 := takeSpc_isSpc r2
      rcases hsp : takeSpc r2 with ⟨sp2, r3⟩
      rw [hsp] at hsp0 hsp1 hsp2
      have hsq0 := takeSpc_append r3'
      have hsq1 := takeSpc_isSpc r3'
      rcases hsq : takeSpc r3' with ⟨sp3, r4⟩
      rw [hsq] at hsq0 hsq1 hsp3
      refine ⟨sp2, sp3, ?_, hsp1, hsq1⟩
      rw [hd]
      simp only at hsp2 hsp3
      rw [← hsp0, hsp2, ← hsq0, hsp3]
    · cases h
  · cases h

theorem tryDecl_shrink {kw s w r : List Char} (h : tryDecl kw s = some (w, r)) :
    r.length < s.length := by
  obtain ⟨sp, hs, hsp, _, hw, _, _⟩ := tryDecl_decomp h
  rw [hs]
  simp
  cases sp with
  | nil => exact absurd rfl hsp
  | cons a sp' => cases w with
    | nil => exact absurd rfl hw
    | cons b w' => simp; omega

theorem tryConstArrow_shrink {s w r : List Char} (h : tryConstArrow s = some (w, r)) :
    r.length < s.length := by
  obtain ⟨sp2, sp3, hd, _, _⟩ := tryConstArrow_tryDecl h
  have := tryDecl_shrink hd
  simp at this
  omega

theorem scanA_fuel (pat : List Char → Option (List Char × List Char))
    (hshrink : ∀ s w r, pat s = some (w, r) → r.length < s.length) :
    ∀ (f : Nat) (s : List Char), s.length ≤ f → scanA pat f s = scanA pat s.length s := by
  intro f
  induction f using Nat.strong_induction_on with
  | _ n ih =>
    intro s hs
    cases n with
    | zero =>
      have : s = [] := List.length_eq_zero.mp (Nat.le_zero.mp hs)
      subst this
      rfl
    | succ m =>
      cases s with
      | nil => rfl
      | cons c cs =>
        have hlen : cs.length ≤ m := by simp at hs; omega
        cases hp : pat (c :: cs) with
        | none =>
          show scanA pat (m + 1) (c :: cs) = scanA pat (cs.length + 1) (c :: cs)
          simp only [scanA, hp]
          exact ih m (by omega) cs hlen
        | some wr =>
          rcases wr with ⟨w, rest⟩
          have hlt := hshrink _ _ _ hp
          simp at hlt
          show scanA pat (m + 1) (c :: cs) = scanA pat (cs.length + 1) (c :: cs)
          simp only [scanA, hp]
          rw [ih m (by omega) rest (by omega), ih cs.length (by omega) rest (by omega)]

theorem findall_cons (pat : List Char → Option (List Char × List Char))
    (hshrink : ∀ s w r, pat s = some (w, r) → r.length < s.length)
    (c : Char) (cs : List Char) :
    findall pat (c :: cs) =
      match pat (c :: cs) with
      | some (w, rest) => w :: findall pat rest
      | none => findall pat cs := by
  show scanA pat (cs.length + 1) (c :: cs) = _
  cases hp : pat (c :: cs) with
  | none => simp only [scanA, hp]; rfl
  | some wr =>
    rcases wr with ⟨w, rest⟩
    have hlt := hshrink _ _ _ hp
    simp at hlt
    simp only [scanA, hp]
    rw [scanA_fuel pat hshrink cs.length rest (by omega)]
    rfl

theorem findall_skip (pat : List Char → Option (List Char × List Char))
    (hshrink : ∀ s w r, pat s = some (w, r) → r.length < s.length) :
    ∀ (mid t : List Char),
      (∀ m1 m2, mid = m1 ++ m2 → m2 ≠ [] → pat (m2 ++ t) = none) →
      findall pat (mid ++ t) = findall pat t := by
  intro mid
  induction mid with
  | nil => intro t _; rfl
  | cons c mid' ih =>
    intro t hfail
    have h0 : pat ((c :: mid') ++ t) = none := by
      simpa using hfail [] (c :: mid') rfl (by simp)
    simp only [List.cons_append] at h0
    rw [List.cons_append, findall_cons pat hshrink]
    simp only [h0]
    exact ih t (fun m1 m2 hm hne => hfail (c :: m1) m2 (by simp [hm]) hne)

theorem prefix_of_words {kw w2 rest : List Char}
    (hkw : ∀ c ∈ kw, isWordChar c = true)
    (hw2 : ∀ c ∈ w2, isWordChar c = true)
    (hrest : ∀ c cs, rest = c :: cs → isWordChar c = false)
    (h : kw <+: w2 ++ rest) : kw <+: w2 := by
  induction kw generalizing w2 with
  | nil => exact List.nil_prefix
  | cons k ks ih =>
    cases w2 with
    | nil =>
      exfalso
      simp only [List.nil_append] at h
      cases rest with
      | nil => simpa using List.prefix_nil.mp h
      | cons c cs =>
        obtain ⟨hk, _⟩ := List.cons_prefix_cons.mp h
        have h1 := hkw k (List.mem_cons_self _ _)
        have h2 := hrest c cs rfl
        rw [hk, h2] at h1
        cases h1
    | cons c w2' =>
      rw [List.cons_append] at h
      obtain ⟨hk, htl⟩ := List.cons_prefix_cons.mp h
      subst hk
      exact List.cons_prefix_cons.mpr
        ⟨rfl, ih (fun x hx => hkw x (List.mem_cons_of_mem _ hx))
          (fun x hx => hw2 x (List.mem_cons_of_mem _ hx)) htl⟩

theorem kconst_suffix_head {m1 m2 : List Char} (hm1 : m1 ≠ [])
    {c : Char} {r : List Char} (hm2 : m2 = c :: r)
    (h : m1 ++ m2 = ['c', 'o', 'n', 's', 't']) : c ≠ 'c' := by
  subst hm2
  rcases m1 with _ | ⟨a1, _ | ⟨a2, _ | ⟨a3, _ | ⟨a4, _ | ⟨a5, m⟩⟩⟩⟩⟩ <;> simp_all

theorem constArrow_sub_varList :
    ∀ (n : Nat) (s : List Char), s.length ≤ n →
      (∀ v ∈ findall (tryDecl ['c', 'o', 'n', 's', 't']) s,
        ¬ ['c', 'o', 'n', 's', 't'] <:+: v) →
      ∀ w ∈ findall tryConstArrow s, w ∈ findall (tryDecl ['c', 'o', 'n', 's', 't']) s := by
  intro n
  induction n using Nat.strong_induction_on with
  | _ n ih =>
    intro s hs H w hw
    cases s with
    | nil => simp [findall, scanA] at hw
    | cons c cs =>
      have caShrink : ∀ (s w r : List Char), tryConstArrow s = some (w, r) →
          r.length < s.length := fun _ _ _ h => tryConstArrow_shrink h
      have dShrink : ∀ (s w r : List Char),
          tryDecl ['c', 'o', 'n', 's', 't'] s = some (w, r) → r.length < s.length :=
        fun _ _ _ h => tryDecl_shrink h
      cases hF : tryConstArrow (c :: cs) with
      | some wr =>
        rcases wr with ⟨wF, restF⟩
        obtain ⟨sp2, sp3, hV, hsp2, hsp3⟩ := tryConstArrow_tryDecl hF
        rw [findall_cons _ caShrink, hF] at hw
        rw [findall_cons _ dShrink, hV]
        have hmid : findall (tryDecl ['c', 'o', 'n', 's', 't'])
            (sp2 ++ '=' :: (sp3 ++ '(' :: restF)) =
            findall (tryDecl ['c', 'o', 'n', 's', 't']) restF := by
          have hre : sp2 ++ '=' :: (sp3 ++ '(' :: restF) =
              (sp2 ++ '=' :: (sp3 ++ ['('])) ++ restF := by simp
          rw [hre]
          apply findall_skip _ dShrink
          intro m1 m2 hm hne
          cases m2 with
          | nil => exact absurd rfl hne
          | cons c' m2' =>
            have hc'mem : c' ∈ sp2 ++ '=' :: (sp3 ++ ['(']) := by
              rw [hm]
              exact List.mem_append_right m1 (List.mem_cons_self _ _)
            have hc' : c' ≠ 'c' := by
              rcases List.mem_append.mp hc'mem with h1 | h2
              · have := hsp2 c' h1
                intro he
                rw [he] at this
                simp [isSpc] at this
              · rcases List.mem_cons.mp h2 with h3 | h4
                · rw [h3]; decide
                · rcases List.mem_append.mp h4 with h5 | h6
                  · have := hsp3 c' h5
                    intro he
                    rw [he] at this
                    simp [isSpc] at this
                  · rw [List.mem_singleton.mp h6]; decide
            rw [List.cons_append]
            exact tryDecl_head_ne hc'
        rcases List.mem_cons.mp hw with hw1 | hw2
        · rw [hw1]; exact List.mem_cons_self _ _
        · have hlt : restF.length < n := by
            have := tryConstArrow_shrink hF
            simp at this hs
            omega
          have Hrest : ∀ v ∈ findall (tryDecl ['c', 'o', 'n', 's', 't']) restF,
              ¬ ['c', 'o', 'n', 's', 't'] <:+: v := by
            intro v hv
            apply H
            rw [findall_cons _ dShrink, hV]
            exact List.mem_cons_of_mem _ (hmid ▸ hv)
          have := ih restF.length hlt restF (le_refl _) Hrest w hw2
          exact List.mem_cons_of_mem _ (hmid ▸ this)
      | none =>
        cases hV : tryDecl ['c', 'o', 'n', 's', 't'] (c :: cs) with
        | none =>
          rw [findall_cons _ caShrink, hF] at hw
          rw [findall_cons _ dShrink, hV]
          have Hcs : ∀ v ∈ findall (tryDecl ['c', 'o', 'n', 's', 't']) cs,
              ¬ ['c', 'o', 'n', 's', 't'] <:+: v := by
            intro v hv
            apply H
            rw [findall_cons _ dShrink, hV]
            exact hv
          have hlen : cs.length < n := by simp at hs; omega
          exact ih cs.length hlen cs (le_refl _) Hcs w hw
        | some vr =>
          rcases vr with ⟨v, restV⟩
          obtain ⟨sp, hseq, hspne, hspc, hvne, hvword, hresthead⟩ := tryDecl_decomp hV
          have hVs : findall (tryDecl ['c', 'o', 'n', 's', 't']) (c :: cs) =
              v :: findall (tryDecl ['c', 'o', 'n', 's', 't']) restV := by
            rw [findall_cons _ dShrink, hV]
          have hvinf : ¬ ['c', 'o', 'n', 's', 't'] <:+: v :=
            H v (by rw [hVs]; exact List.mem_cons_self _ _)
          have wroute : ∀ m2 : List Char, m2 <:+ v →
              tryConstArrow (m2 ++ restV) = none := by
            intro m2 hsuf
            cases hTA : tryConstArrow (m2 ++ restV) with
            | none => rfl
            | some wr2 =>
              exfalso
              rcases wr2 with ⟨wx, rx⟩
              obtain ⟨spx2, spx3, hVd, _, _⟩ := tryConstArrow_tryDecl hTA
              obtain ⟨spx, hx, _⟩ := tryDecl_decomp hVd
              have hpre : ['c', 'o', 'n', 's', 't'] <+: m2 ++ restV := ⟨_, hx.symm⟩
              have hw2 : ∀ x ∈ m2, isWordChar x = true := fun x hx2 =>
                hvword x (hsuf.subset hx2)
              obtain ⟨t2, ht2⟩ := prefix_of_words (by decide) hw2 hresthead hpre
              obtain ⟨u2, hu2⟩ := hsuf
              exact hvinf ⟨u2, t2, by rw [List.append_assoc, ht2, hu2]⟩
          have hFs : findall tryConstArrow (c :: cs) = findall tryConstArrow restV := by
            have hblock : c :: cs = (['c', 'o', 'n', 's', 't'] ++ (sp ++ v)) ++ restV := by
              rw [hseq]; simp [List.append_assoc]
            rw [hblock]
            apply findall_skip _ caShrink
            intro m1 m2 hm hne
            by_cases hm1 : m1 = []
            · subst hm1
              simp only [List.nil_append] at hm
              have hm2eq : m2 ++ restV = c :: cs := by rw [← hm]; exact hblock.symm
              rw [hm2eq]
              exact hF
            · cases m2 with
              | nil => exact absurd rfl hne
              | cons c' m2' =>
                show tryConstArrow (c' :: (m2' ++ restV)) = none
                rcases List.append_eq_append_iff.mp hm with ⟨u, hu1, hu2⟩ | ⟨u, hu1, hu2⟩
                · -- m1 = kconst ++ u and sp ++ v = u ++ (c' :: m2')
                  rcases List.append_eq_append_iff.mp hu2 with ⟨u2, hv1, hv2⟩ | ⟨u2, hv1, hv2⟩
                  · -- u = sp ++ u2 and v = u2 ++ (c' :: m2')
                    exact wroute _ ⟨u2, hv2.symm⟩
                  · -- sp = u ++ u2 and c' :: m2' = u2 ++ v
                    cases u2 with
                    | nil =>
                      simp only [List.nil_append] at hv2
                      exact wroute (c' :: m2') ⟨[], by simpa using hv2⟩
                    | cons cu u2' =>
                      have hc' : c' = cu := by
                        rw [List.cons_append] at hv2
                        exact (List.cons.inj hv2).1
                      have hcu : isSpc cu = true := hspc cu
                        (by rw [hv1]; exact List.mem_append_right u (List.mem_cons_self _ _))
                      refine tryConstArrow_head_ne ?_
                      intro he
                      rw [← hc', he] at hcu
                      simp [isSpc] at hcu
                · -- kconst = m1 ++ u and c' :: m2' = u ++ (sp ++ v)
                  cases u with
                  | nil =>
                    simp only [List.nil_append] at hu2
                    cases sp with
                    | nil => exact absurd rfl hspne
                    | cons a sp' =>
                      have hc' : c' = a := by
                        rw [List.cons_append] at hu2
                        exact (List.cons.inj hu2).1
                      have ha : isSpc a = true := hspc a (List.mem_cons_self _ _)
                      refine tryConstArrow_head_ne ?_
                      intro he
                      rw [← hc', he] at ha
                      simp [isSpc] at ha
                  | cons cu u' =>
                    have hc' : c' = cu := by
                      rw [List.cons_append] at hu2
                      exact (List.cons.inj hu2).1
                    have hcu : cu ≠ 'c' := kconst_suffix_head hm1 rfl hu1.symm
                    exact tryConstArrow_head_ne (by rw [hc']; exact hcu)
          rw [hVs]
          rw [hFs] at hw
          have HrestV : ∀ x ∈ findall (tryDecl ['c', 'o', 'n', 's', 't']) restV,
              ¬ ['c', 'o', 'n', 's', 't'] <:+: x := by
            intro x hx
            exact H x (by rw [hVs]; exact List.mem_cons_of_mem _ hx)
          have hlen2 : restV.length < n := by
            have := tryDecl_shrink hV
            simp at this hs
            omega
          exact List.mem_cons_of_mem _ (ih restV.length hlen2 restV (le_refl _) HrestV w hw)

theorem hasSub_of_infix {v : List Char} {sub : String} (h : sub.data <:+: v) :
    hasSub (List.asString v) sub = true := by
  obtain ⟨s, t, hst⟩ := h
  have hdata : (List.asString v).data = v := rfl
  unfold hasSub
  rw [hdata, List.any_eq_true]
  refine ⟨sub.data ++ t, ?_, ?_⟩
  · rw [List.mem_tails]
    exact ⟨s, by rw [← List.append_assoc, hst]⟩
  · exact List.isPrefixOf_iff_prefix.mpr (List.prefix_append _ _)

/-- **C10** as stated fails on the code.  On `"const aconst b = ("` the
const-arrow pattern matches at the second, embedded `const` occurrence and
reports `b`, but the variable scan's leftmost match already consumed that
occurrence inside its greedy `\w+` capture `aconst`, so `b` is not among the
extracted variables — and here the variable and function sets are in fact
disjoint although a const-declared arrow function is present. -/
theorem claim_C10_counterexample :
    "b" ∈ constArrowNames "const aconst b = (" ∧
    "b" ∉ (ProjectState.extract "const aconst b = (").1 ∧
    (ProjectState.extract "const aconst b = (").1 ∩
      (ProjectState.extract "const aconst b = (").2 = [] ∧
    constArrowNames "const aconst b = (" ≠ [] := by decide

/-- **C10 (amended).** For every source text in which no variable name
reported by the bare-`const` pattern contains `"const"` as a substring, every
function name reported via the const-arrow pattern also appears in the
extracted variables set.  (The substring proviso is exactly what the
counterexample forces: a greedy `\w+` variable capture containing `const`
can swallow the occurrence the arrow pattern later matches.) -/
theorem claim_C10_amended (code : String)
    (h : ∀ v ∈ constVarNames code, hasSub v "const" = false) :
    ∀ name ∈ constArrowNames code, name ∈ (ProjectState.extract code).1 := by
  intro name hname
  obtain ⟨w, hw, hwn⟩ := List.mem_map.mp hname
  have Hlist : ∀ v ∈ findall (tryDecl ['c', 'o', 'n', 's', 't']) code.data,
      ¬ ['c', 'o', 'n', 's', 't'] <:+: v := by
    intro v hv hinf
    have hmem : (List.asString v) ∈ constVarNames code := List.mem_map_of_mem _ hv
    have hfalse := h _ hmem
    have htrue : hasSub (List.asString v) "const" = true := hasSub_of_infix hinf
    rw [hfalse] at htrue
    cases htrue
  have hmain := constArrow_sub_varList code.data.length code.data (le_refl _) Hlist w hw
  rw [← hwn]
  simp only [ProjectState.extract]
  rw [List.mem_dedup]
  exact List.mem_map_of_mem _ (List.mem_append_right _ hmain)

theorem claim_C10_amended_witness :
    (∀ v ∈ constVarNames "const f = (x) => x", hasSub v "const" = false) ∧
    "f" ∈ constArrowNames "const f = (x) => x" ∧
    "f" ∈ (ProjectState.extract "const f = (x) => x").1 :=
  ⟨by decide, by decide, claim_C10_amended _ (by decide) "f" (by decide)⟩
